import Mathlib

/-!
# Verification of the ryxu-xo-lavalink-encoder track/playlist transcoder

A shallow embedding of the TypeScript sources:

* `src/encoders/TrackEncoder.ts` — track validation, projection, the
  JSON.stringify / TextEncoder / base64 encode pipeline and its inverse;
* `src/encoders/PlaylistEncoder.ts` — playlist encode, merge and split;
* `src/discord/DiscordTrackEncoder.ts` and `src/LavalinkEncoder.ts` — the
  annotation layer and the façade;
* `src/utils/index.ts` — `decodeMultipleTracks`.

Modelling conventions:

* JavaScript strings are Lean `String`s (lists of unicode scalar values);
  the numeric track fields (`length`, `position`, `selectedTrack`) are `Int`
  (the repository only ever serializes integral values);
* exceptions become `Except String`, carrying the thrown `Error` message;
* `console.warn` output is returned as an explicit list of warning strings;
* `JSON.stringify` / `JSON.parse` are modelled by `renderJson` / `parseJson`
  over a JSON value type whose numbers are integers (the only numbers the
  encoder produces); the parser does not skip whitespace (the encoder never
  emits any outside string literals);
* `TextEncoder` / `TextDecoder` are modelled by `utf8Encode` / `utf8Decode`;
  `TextDecoder` runs in its default non-fatal mode, so the decoder is total
  and yields U+FFFD on malformed byte sequences (resynchronisation after a
  malformed sequence is simplified to single-byte skips, which no claim
  exercises);
* `base64-js`'s `fromByteArray` / `toByteArray` are modelled byte-exactly,
  including its lenient treatment of characters outside the alphabet
  (an unknown character contributes the sextet 0, as the JavaScript
  `undefined` bitwise coercion does) and its length / placeholder handling.
-/

/-! ## JSON values (the structural encoding) -/

/-- A JSON value as produced by `JSON.stringify` and consumed by `JSON.parse`.
Numbers are restricted to integers: the encoder only serializes integral
JavaScript numbers. -/
inductive Json where
  | str (s : String)
  | num (n : Int)
  | bool (b : Bool)
  | null
  | obj (fields : List (String × Json))
  | arr (elems : List Json)

/-- The double-quote character. -/
def qChar : Char := '\x22'

/-- The backslash character. -/
def bsChar : Char := '\x5c'

/-- Opening brace. -/
def lbraceChar : Char := '\x7b'

/-- Closing brace. -/
def rbraceChar : Char := '\x7d'

/-- Decimal digit character for `n < 10`. -/
def digitChar (n : Nat) : Char := Char.ofNat (48 + n)

/-- Lowercase hexadecimal digit character for `n < 16` (as emitted by
`JSON.stringify` in `\u00xx` escapes). -/
def hexChar (n : Nat) : Char :=
  if n < 10 then Char.ofNat (48 + n) else Char.ofNat (87 + n)

/-- Decimal digits of `n`, most significant first, via fuel-structured
recursion (`fuel ≥ n` suffices). -/
def natCharsGo : Nat → Nat → List Char
  | 0, n => [digitChar (n % 10)]
  | fuel + 1, n =>
    if n < 10 then [digitChar n]
    else natCharsGo fuel (n / 10) ++ [digitChar (n % 10)]

/-- Decimal representation of a natural number, as JavaScript number
stringification renders a non-negative integer. -/
def natChars (n : Nat) : List Char := natCharsGo n n

/-- Decimal representation of an integer, as JavaScript renders it. -/
def intChars (n : Int) : List Char :=
  if n < 0 then '-' :: natChars n.natAbs else natChars n.toNat

/-- `JSON.stringify`'s escaping of a single character inside a string
literal: `"` and `\` get a backslash escape, the five named control
characters get their short escapes, the remaining control characters get
`\u00xx`, and every other character is emitted literally. -/
def escChar (c : Char) : List Char :=
  if c = qChar then [bsChar, qChar]
  else if c = bsChar then [bsChar, bsChar]
  else if c = '\x08' then [bsChar, 'b']
  else if c = '\t' then [bsChar, 't']
  else if c = '\n' then [bsChar, 'n']
  else if c = '\x0c' then [bsChar, 'f']
  else if c = '\x0d' then [bsChar, 'r']
  else if c.toNat < 32 then
    [bsChar, 'u', '0', '0', hexChar (c.toNat / 16), hexChar (c.toNat % 16)]
  else [c]

/-- Escape a whole string body. -/
def escapeChars : List Char → List Char
  | [] => []
  | c :: cs => escChar c ++ escapeChars cs

/-- Render a JSON string literal (including the surrounding quotes). -/
def renderString (s : String) : List Char :=
  qChar :: escapeChars s.data ++ [qChar]

mutual

/-- `JSON.stringify` (restricted to integer numbers, no whitespace). -/
def renderJson : Json → List Char
  | .str s => renderString s
  | .num n => intChars n
  | .bool true => ['t', 'r', 'u', 'e']
  | .bool false => ['f', 'a', 'l', 's', 'e']
  | .null => ['n', 'u', 'l', 'l']
  | .obj [] => [lbraceChar, rbraceChar]
  | .obj (f :: fs) => lbraceChar :: renderMembers (f :: fs) ++ [rbraceChar]
  | .arr [] => ['[', ']']
  | .arr (e :: es) => '[' :: renderElems (e :: es) ++ [']']

/-- Comma-separated `"key":value` members of a non-empty object. -/
def renderMembers : List (String × Json) → List Char
  | [] => []
  | [(k, v)] => renderString k ++ ':' :: renderJson v
  | (k, v) :: f :: fs =>
    renderString k ++ ':' :: renderJson v ++ ',' :: renderMembers (f :: fs)

/-- Comma-separated elements of a non-empty array. -/
def renderElems : List Json → List Char
  | [] => []
  | [e] => renderJson e
  | e :: f :: fs => renderJson e ++ ',' :: renderElems (f :: fs)

end

/-! ## JSON parsing (`JSON.parse`) -/

/-- Numeric value of a decimal digit character. -/
def digVal (c : Char) : Nat := c.toNat - 48

/-- Is `c` a decimal digit? -/
def isDig (c : Char) : Bool := 48 ≤ c.toNat && c.toNat ≤ 57

/-- Numeric value of a hexadecimal digit character, if it is one. -/
def hexVal (c : Char) : Option Nat :=
  if 48 ≤ c.toNat && c.toNat ≤ 57 then some (c.toNat - 48)
  else if 97 ≤ c.toNat && c.toNat ≤ 102 then some (c.toNat - 87)
  else if 65 ≤ c.toNat && c.toNat ≤ 70 then some (c.toNat - 55)
  else none

/-- Single-character escapes accepted after a backslash in a JSON string. -/
def unescChar (c : Char) : Option Char :=
  if c = qChar then some qChar
  else if c = bsChar then some bsChar
  else if c = '/' then some '/'
  else if c = 'b' then some '\x08'
  else if c = 't' then some '\t'
  else if c = 'n' then some '\n'
  else if c = 'f' then some '\x0c'
  else if c = 'r' then some '\x0d'
  else none

/-- Parse the body of a JSON string literal (after the opening quote), up to
and including the closing quote; returns the decoded characters and the
remaining input. -/
def parseStringBody : List Char → Except String (List Char × List Char)
  | [] => .error "Unterminated string in JSON"
  | c :: rest =>
    if c = qChar then .ok ([], rest)
    else if c = bsChar then
      match rest with
      | [] => .error "Unterminated string in JSON"
      | e :: rest2 =>
        if e = 'u' then
          match rest2 with
          | h1 :: h2 :: h3 :: h4 :: rest3 =>
            match hexVal h1, hexVal h2, hexVal h3, hexVal h4 with
            | some v1, some v2, some v3, some v4 =>
              (parseStringBody rest3).map
                (fun p => (Char.ofNat (v1 * 4096 + v2 * 256 + v3 * 16 + v4) :: p.1, p.2))
            | _, _, _, _ => .error "Bad Unicode escape in JSON"
          | _ => .error "Bad Unicode escape in JSON"
        else
          match unescChar e with
          | some u => (parseStringBody rest2).map (fun p => (u :: p.1, p.2))
          | none => .error "Bad escaped character in JSON"
    else (parseStringBody rest).map (fun p => (c :: p.1, p.2))

/-- Consume a maximal run of decimal digits, accumulating their value. -/
def parseDigitsAcc (acc : Nat) : List Char → Nat × List Char
  | [] => (acc, [])
  | c :: rest =>
    if isDig c then parseDigitsAcc (acc * 10 + digVal c) rest else (acc, c :: rest)

/-- Parse a non-empty run of decimal digits. -/
def parseNatNum : List Char → Except String (Nat × List Char)
  | [] => .error "Unexpected end of JSON input"
  | c :: rest =>
    if isDig c then .ok (parseDigitsAcc (digVal c) rest)
    else .error "Unexpected token in JSON"

/-- Parse an integer JSON number (optional leading minus). -/
def parseNumber : List Char → Except String (Json × List Char)
  | [] => .error "Unexpected end of JSON input"
  | c :: rest =>
    if c = '-' then (parseNatNum rest).map (fun p => (.num (-(p.1 : Int)), p.2))
    else (parseNatNum (c :: rest)).map (fun p => (.num (p.1 : Int), p.2))

mutual

/-- Parse one JSON value, fuel-bounded on nesting depth (every recursive
descent consumes at least one character first, so fuel exceeding the input
length never runs out). -/
def parseValue : Nat → List Char → Except String (Json × List Char)
  | 0, _ => .error "JSON input too deeply nested"
  | _ + 1, [] => .error "Unexpected end of JSON input"
  | fuel + 1, c :: rest =>
    if c = qChar then
      (parseStringBody rest).map (fun p => (.str (String.mk p.1), p.2))
    else if c = 't' then
      match rest with
      | 'r' :: 'u' :: 'e' :: r => .ok (.bool true, r)
      | _ => .error "Unexpected token in JSON"
    else if c = 'f' then
      match rest with
      | 'a' :: 'l' :: 's' :: 'e' :: r => .ok (.bool false, r)
      | _ => .error "Unexpected token in JSON"
    else if c = 'n' then
      match rest with
      | 'u' :: 'l' :: 'l' :: r => .ok (.null, r)
      | _ => .error "Unexpected token in JSON"
    else if c = lbraceChar then
      match rest with
      | [] => .error "Unexpected end of JSON input"
      | c2 :: rest2 =>
        if c2 = rbraceChar then .ok (.obj [], rest2)
        else (parseMembers fuel (c2 :: rest2)).map (fun p => (.obj p.1, p.2))
    else if c = '[' then
      match rest with
      | [] => .error "Unexpected end of JSON input"
      | c2 :: rest2 =>
        if c2 = ']' then .ok (.arr [], rest2)
        else (parseElems fuel (c2 :: rest2)).map (fun p => (.arr p.1, p.2))
    else if c = '-' || isDig c then parseNumber (c :: rest)
    else .error "Unexpected token in JSON"

/-- Parse the non-empty member list of an object, up to and including the
closing brace. -/
def parseMembers : Nat → List Char → Except String (List (String × Json) × List Char)
  | 0, _ => .error "JSON input too deeply nested"
  | _ + 1, [] => .error "Unexpected end of JSON input"
  | fuel + 1, c :: rest =>
    if c = qChar then
      match parseStringBody rest with
      | .error e => .error e
      | .ok (key, rest2) =>
        match rest2 with
        | ':' :: rest3 =>
          match parseValue fuel rest3 with
          | .error e => .error e
          | .ok (v, rest4) =>
            match rest4 with
            | d :: rest5 =>
              if d = ',' then
                (parseMembers fuel rest5).map
                  (fun p => ((String.mk key, v) :: p.1, p.2))
              else if d = rbraceChar then .ok ([(String.mk key, v)], rest5)
              else .error "Expected comma or closing brace in JSON object"
            | [] => .error "Unexpected end of JSON input"
        | _ => .error "Expected colon in JSON object"
    else .error "Expected string key in JSON object"

/-- Parse the non-empty element list of an array, up to and including the
closing bracket. -/
def parseElems : Nat → List Char → Except String (List Json × List Char)
  | 0, _ => .error "JSON input too deeply nested"
  | fuel + 1, cs =>
    match parseValue fuel cs with
    | .error e => .error e
    | .ok (v, rest) =>
      match rest with
      | d :: rest2 =>
        if d = ',' then (parseElems fuel rest2).map (fun p => (v :: p.1, p.2))
        else if d = ']' then .ok ([v], rest2)
        else .error "Expected comma or closing bracket in JSON array"
      | [] => .error "Unexpected end of JSON input"

end

/-- `JSON.parse`: parse a complete JSON document, rejecting trailing input. -/
def parseJson (cs : List Char) : Except String Json :=
  match parseValue (cs.length + 1) cs with
  | .error e => .error e
  | .ok (j, []) => .ok j
  | .ok (_, _ :: _) => .error "Unexpected non-whitespace character after JSON"

/-! ## UTF-8 (`TextEncoder` / `TextDecoder`) -/

/-- UTF-8 encoding of one unicode scalar value (`TextEncoder`). -/
def utf8EncodeChar (c : Char) : List Nat :=
  if c.toNat < 128 then [c.toNat]
  else if c.toNat < 2048 then [192 + c.toNat / 64, 128 + c.toNat % 64]
  else if c.toNat < 65536 then
    [224 + c.toNat / 4096, 128 + c.toNat / 64 % 64, 128 + c.toNat % 64]
  else
    [240 + c.toNat / 262144, 128 + c.toNat / 4096 % 64, 128 + c.toNat / 64 % 64,
      128 + c.toNat % 64]

/-- UTF-8 encoding of a string as a byte list (`TextEncoder.encode`). -/
def utf8Encode : List Char → List Nat
  | [] => []
  | c :: cs => utf8EncodeChar c ++ utf8Encode cs

/-- The U+FFFD replacement character emitted by a non-fatal `TextDecoder`
on malformed input. -/
def replChar : Char := Char.ofNat 65533

/-- Is `b` a UTF-8 continuation byte? -/
def isCont (b : Nat) : Bool := 128 ≤ b && b < 192

/-- UTF-8 decoding of a byte list (`TextDecoder.decode` in its default
non-fatal mode): total, emitting U+FFFD for malformed sequences.
Resynchronisation after a malformed sequence is simplified to skipping a
single byte; on well-formed input (in particular on every `utf8Encode`
output) the function is the exact inverse of `utf8Encode`. The fuel is
structural bookkeeping only: one unit per decoded character, so the byte
count is always enough. -/
def utf8DecodeGo : Nat → List Nat → List Char
  | _, [] => []
  | 0, _ :: _ => []
  | fuel + 1, b :: bs =>
    if b < 128 then Char.ofNat b :: utf8DecodeGo fuel bs
    else if b < 194 then replChar :: utf8DecodeGo fuel bs
    else if b < 224 then
      match bs with
      | [] => [replChar]
      | b1 :: bs1 =>
        if isCont b1 then Char.ofNat ((b - 192) * 64 + (b1 - 128)) :: utf8DecodeGo fuel bs1
        else replChar :: utf8DecodeGo fuel (b1 :: bs1)
    else if b < 240 then
      match bs with
      | [] => [replChar]
      | b1 :: bs1 =>
        match bs1 with
        | [] => replChar :: utf8DecodeGo fuel [b1]
        | b2 :: bs2 =>
          if isCont b1 && isCont b2 then
            Char.ofNat ((b - 224) * 4096 + (b1 - 128) * 64 + (b2 - 128))
              :: utf8DecodeGo fuel bs2
          else replChar :: utf8DecodeGo fuel (b1 :: b2 :: bs2)
    else if b < 245 then
      match bs with
      | [] => [replChar]
      | b1 :: bs1 =>
        match bs1 with
        | [] => replChar :: utf8DecodeGo fuel [b1]
        | b2 :: bs2 =>
          match bs2 with
          | [] => replChar :: utf8DecodeGo fuel [b1, b2]
          | b3 :: bs3 =>
            if isCont b1 && (isCont b2 && isCont b3) then
              Char.ofNat ((b - 240) * 262144 + (b1 - 128) * 4096 + (b2 - 128) * 64
                + (b3 - 128)) :: utf8DecodeGo fuel bs3
            else replChar :: utf8DecodeGo fuel (b1 :: b2 :: b3 :: bs3)
    else replChar :: utf8DecodeGo fuel bs

/-- `TextDecoder.decode` on a whole byte list. -/
def utf8Decode (bs : List Nat) : List Char := utf8DecodeGo bs.length bs

/-! ## base64 (`base64-js`) -/

/-- The standard base64 alphabet used by `base64-js`'s `lookup` table. -/
def b64Alphabet : List Char :=
  ['A', 'B', 'C', 'D', 'E', 'F', 'G', 'H', 'I', 'J', 'K', 'L', 'M',
   'N', 'O', 'P', 'Q', 'R', 'S', 'T', 'U', 'V', 'W', 'X', 'Y', 'Z',
   'a', 'b', 'c', 'd', 'e', 'f', 'g', 'h', 'i', 'j', 'k', 'l', 'm',
   'n', 'o', 'p', 'q', 'r', 's', 't', 'u', 'v', 'w', 'x', 'y', 'z',
   '0', '1', '2', '3', '4', '5', '6', '7', '8', '9', '+', '/']

/-- `lookup[n]`: the alphabet character for a sextet. -/
def b64Look (n : Nat) : Char := b64Alphabet.getD n 'A'

/-- `revLookup[c]`: the sextet for a character. `base64-js` additionally maps
the URL-safe characters `-` and `_`, and any character outside the table
contributes 0 via JavaScript's `undefined` bitwise coercion — invalid
characters are NOT rejected. -/
def b64Rev (c : Char) : Nat :=
  if c = '-' then 62
  else if c = '_' then 63
  else match b64Alphabet.findIdx? (fun a => a = c) with
    | some i => i
    | none => 0

/-- `base64-js.fromByteArray`: three bytes become four alphabet characters;
a trailing group of one or two bytes is padded with `=`. -/
def b64Encode : List Nat → List Char
  | b0 :: b1 :: b2 :: rest =>
    b64Look ((b0 * 65536 + b1 * 256 + b2) / 262144)
      :: b64Look ((b0 * 65536 + b1 * 256 + b2) / 4096 % 64)
      :: b64Look ((b0 * 65536 + b1 * 256 + b2) / 64 % 64)
      :: b64Look ((b0 * 65536 + b1 * 256 + b2) % 64) :: b64Encode rest
  | [b0, b1] =>
    [b64Look ((b0 * 256 + b1) / 1024), b64Look ((b0 * 256 + b1) / 16 % 64),
      b64Look ((b0 * 256 + b1) * 4 % 64), '=']
  | [b0] => [b64Look (b0 / 4), b64Look (b0 % 4 * 16), '=', '=']
  | [] => []

/-- Index of the first `=` in the input, or its length if there is none
(`b64.indexOf('=')` with the `-1` case folded in, as `getLens` uses it). -/
def firstEqIdx : List Char → Nat
  | [] => 0
  | c :: rest => if c = '=' then 0 else firstEqIdx rest + 1

/-- The main decode loop of `base64-js.toByteArray`: each group of four
characters yields three bytes. -/
def b64DecodeQuads : List Char → List Nat
  | c0 :: c1 :: c2 :: c3 :: rest =>
    (b64Rev c0 * 262144 + b64Rev c1 * 4096 + b64Rev c2 * 64 + b64Rev c3) / 65536
      :: (b64Rev c0 * 262144 + b64Rev c1 * 4096 + b64Rev c2 * 64 + b64Rev c3) / 256 % 256
      :: (b64Rev c0 * 262144 + b64Rev c1 * 4096 + b64Rev c2 * 64 + b64Rev c3) % 256
      :: b64DecodeQuads rest
  | _ => []

/-- `base64-js.toByteArray`, byte-exact: throws only when the length is not
a multiple of four, or when the computed output length is negative (the
input starts with `=`), in which case `new Uint8Array(-1)` throws.
`validLen` / `placeHoldersLen` / the loop bound and the two tail branches
follow `getLens` and `toByteArray`; positions the loop never writes remain
zero, and out-of-range character reads behave like `charCodeAt` returning
`NaN` (sextet 0, the value of `A`). -/
def b64Decode (s : List Char) : Except String (List Nat) :=
  if s.length % 4 ≠ 0 then .error "Invalid string. Length must be a multiple of 4"
  else
    let validLen := firstEqIdx s
    let ph := if validLen = s.length then 0 else 4 - validLen % 4
    let limit := if ph > 0 then validLen - 4 else validLen
    let iTail := (limit + 3) / 4 * 4
    let byteLen : Int := ((validLen : Int) + ph) * 3 / 4 - ph
    if byteLen < 0 then .error "Invalid typed array length"
    else
      let loopBytes := b64DecodeQuads (s.take iTail)
      let tailBytes :=
        if ph = 2 then
          [(b64Rev (s.getD iTail 'A') * 4 + b64Rev (s.getD (iTail + 1) 'A') / 16) % 256]
        else if ph = 1 then
          let t := b64Rev (s.getD iTail 'A') * 1024 + b64Rev (s.getD (iTail + 1) 'A') * 16
            + b64Rev (s.getD (iTail + 2) 'A') / 4
          [t / 256 % 256, t % 256]
        else []
      let written := loopBytes ++ tailBytes
      .ok (written ++ List.replicate (byteLen.toNat - written.length) 0)

/-! ## Data model (`src/types/index.ts`) -/

/-- `TrackInfo`: the structured track-metadata record. -/
structure TrackInfo where
  identifier : String
  isSeekable : Bool
  author : String
  length : Int
  isStream : Bool
  position : Int
  title : String
  uri : String
  sourceName : String
  artworkUrl : Option String := none
  isrc : Option String := none
deriving DecidableEq

/-- `LavalinkTrack` (also the `Track` shape): an encoded token with the
original record. -/
structure LavalinkTrack where
  track : String
  info : TrackInfo
deriving DecidableEq

/-- The resolved (`Required<EncoderOptions>`) configuration of a
`TrackEncoder`. -/
structure EncoderOptions where
  includeArtwork : Bool
  includeISRC : Bool
  sourceName : String
  validate : Bool
deriving DecidableEq

/-- The resolved (`Required<PlaylistEncoderOptions>`) configuration of a
`PlaylistEncoder`. -/
structure PlaylistEncoderOptions where
  includeArtwork : Bool
  includeISRC : Bool
  sourceName : String
  validate : Bool
  maxTracks : Nat
  includeMetadata : Bool
deriving DecidableEq

/-- The optional constructor argument (`EncoderOptions & PlaylistEncoderOptions`
with every field optional); `none` models an absent property. -/
structure OptionsArg where
  includeArtwork : Option Bool := none
  includeISRC : Option Bool := none
  sourceName : Option String := none
  validate : Option Bool := none
  maxTracks : Option Nat := none
  includeMetadata : Option Bool := none
deriving DecidableEq

/-- The `??`-defaulting in the `TrackEncoder` constructor (lines 10-17). -/
def resolveEncoderOptions (o : OptionsArg) : EncoderOptions :=
  { includeArtwork := o.includeArtwork.getD true
    includeISRC := o.includeISRC.getD true
    sourceName := o.sourceName.getD "unknown"
    validate := o.validate.getD true }

/-- The `??`-defaulting in the `PlaylistEncoder` constructor (lines 11-19). -/
def resolvePlaylistOptions (o : OptionsArg) : PlaylistEncoderOptions :=
  { includeArtwork := o.includeArtwork.getD true
    includeISRC := o.includeISRC.getD true
    sourceName := o.sourceName.getD "unknown"
    validate := o.validate.getD true
    maxTracks := o.maxTracks.getD 1000
    includeMetadata := o.includeMetadata.getD true }

/-- The four options a `PlaylistEncoder` forwards to its inner
`TrackEncoder` (constructor lines 21-26 and `updateOptions` lines 246-251). -/
def PlaylistEncoderOptions.toEncoderOptions (o : PlaylistEncoderOptions) : EncoderOptions :=
  { includeArtwork := o.includeArtwork
    includeISRC := o.includeISRC
    sourceName := o.sourceName
    validate := o.validate }

/-- `{...this.options, ...options}` on a `TrackEncoder`. -/
def updateEncoderOptions (cur : EncoderOptions) (o : OptionsArg) : EncoderOptions :=
  { includeArtwork := o.includeArtwork.getD cur.includeArtwork
    includeISRC := o.includeISRC.getD cur.includeISRC
    sourceName := o.sourceName.getD cur.sourceName
    validate := o.validate.getD cur.validate }

/-- `{...this.options, ...options}` on a `PlaylistEncoder`. -/
def updatePlaylistOptions (cur : PlaylistEncoderOptions) (o : OptionsArg) : PlaylistEncoderOptions :=
  { includeArtwork := o.includeArtwork.getD cur.includeArtwork
    includeISRC := o.includeISRC.getD cur.includeISRC
    sourceName := o.sourceName.getD cur.sourceName
    validate := o.validate.getD cur.validate
    maxTracks := o.maxTracks.getD cur.maxTracks
    includeMetadata := o.includeMetadata.getD cur.includeMetadata }

/-! ## `TrackEncoder` (`src/encoders/TrackEncoder.ts`) -/

/-- `validateTrackInfo` (lines 160-176): the five required-field checks, in
source order, throwing on the first failure. JavaScript's falsiness test on
a string is emptiness; `length` is always a number in the model, so the
`typeof` half of its check cannot fail. -/
def validateTrackInfo (t : TrackInfo) : Except String Unit :=
  if t.identifier = "" then .error "Track identifier is required"
  else if t.title = "" then .error "Track title is required"
  else if t.author = "" then .error "Track author is required"
  else if t.length < 0 then .error "Track length must be a non-negative number"
  else if t.uri = "" then .error "Track URI is required"
  else .ok ()

/-- The `trackData` object literal of `encodeTrack` (lines 27-39), in
insertion order: the nine always-present fields (with `sourceName`
defaulted when the record's own value is empty, via `||`), then
`artworkUrl` when `includeArtwork` is on and the record's value is truthy
(present and non-empty), then `isrc` likewise. -/
def projectTrackData (opts : EncoderOptions) (t : TrackInfo) : List (String × Json) :=
  [("identifier", .str t.identifier),
   ("isSeekable", .bool t.isSeekable),
   ("author", .str t.author),
   ("length", .num t.length),
   ("isStream", .bool t.isStream),
   ("position", .num t.position),
   ("title", .str t.title),
   ("uri", .str t.uri),
   ("sourceName", .str (if t.sourceName = "" then opts.sourceName else t.sourceName))]
  ++ (match t.artworkUrl with
      | some a => if opts.includeArtwork && a ≠ "" then [("artworkUrl", .str a)] else []
      | none => [])
  ++ (match t.isrc with
      | some i => if opts.includeISRC && i ≠ "" then [("isrc", .str i)] else []
      | none => [])

/-- `encodeTrackData` (lines 181-185): `JSON.stringify`, `TextEncoder`,
`base64.fromByteArray`. -/
def encodeTrackData (data : Json) : String :=
  String.mk (b64Encode (utf8Encode (renderJson data)))

/-- `decodeTrackData` (lines 190-194): `base64.toByteArray`, `TextDecoder`,
`JSON.parse`. -/
def decodeTrackData (s : String) : Except String Json :=
  match b64Decode s.data with
  | .error e => .error e
  | .ok bytes => parseJson (utf8Decode bytes)

/-- The token `encodeTrack` produces for a record. -/
def mkToken (opts : EncoderOptions) (t : TrackInfo) : String :=
  encodeTrackData (.obj (projectTrackData opts t))

/-- `encodeTrack` (lines 22-47): validate if configured, then wrap the
encoded projection together with an echo of the original record. -/
def encodeTrack (opts : EncoderOptions) (t : TrackInfo) : Except String LavalinkTrack :=
  if opts.validate then
    match validateTrackInfo t with
    | .error e => .error e
    | .ok _ => .ok { track := mkToken opts t, info := t }
  else .ok { track := mkToken opts t, info := t }

/-- `decodeTrack` (lines 52-59): run `decodeTrackData`, wrapping any failure
message. The TypeScript `decoded as TrackInfo` is an unchecked cast, so the
returned value is whatever JSON value the token contained. -/
def decodeTrack (s : String) : Except String Json :=
  match decodeTrackData s with
  | .ok j => .ok j
  | .error e => .error ("Failed to decode track: " ++ e)

/-- A `Partial<TrackInfo>` argument: present fields override. -/
structure TrackInfoOverride where
  identifier : Option String := none
  isSeekable : Option Bool := none
  author : Option String := none
  length : Option Int := none
  isStream : Option Bool := none
  position : Option Int := none
  title : Option String := none
  uri : Option String := none
  sourceName : Option String := none
  artworkUrl : Option String := none
  isrc : Option String := none
deriving DecidableEq

/-- The object spread `{ ...base, ...additionalInfo }`. -/
def applyOverride (base : TrackInfo) (o : TrackInfoOverride) : TrackInfo :=
  { identifier := o.identifier.getD base.identifier
    isSeekable := o.isSeekable.getD base.isSeekable
    author := o.author.getD base.author
    length := o.length.getD base.length
    isStream := o.isStream.getD base.isStream
    position := o.position.getD base.position
    title := o.title.getD base.title
    uri := o.uri.getD base.uri
    sourceName := o.sourceName.getD base.sourceName
    artworkUrl := o.artworkUrl <|> base.artworkUrl
    isrc := o.isrc <|> base.isrc }

/-- `createTrack` (lines 64-86): build a record with the derived
`isSeekable`/`isStream`/`position`/`sourceName` fields, apply the
`additionalInfo` overrides, and encode it. -/
def createTrack (opts : EncoderOptions) (identifier title author : String) (length : Int)
    (uri : String) (additionalInfo : TrackInfoOverride) : Except String LavalinkTrack :=
  encodeTrack opts (applyOverride
    { identifier := identifier
      title := title
      author := author
      length := length
      uri := uri
      isSeekable := decide (0 < length)
      isStream := decide (length = 0)
      position := 0
      sourceName := opts.sourceName
      artworkUrl := none
      isrc := none } additionalInfo)

/-! ## `PlaylistEncoder` (`src/encoders/PlaylistEncoder.ts`) -/

/-- `PlaylistInfo`: name and selected index. -/
structure PlaylistInfo where
  name : String
  selectedTrack : Int
deriving DecidableEq

/-- `LavalinkPlaylist`: info, opaque plugin bag, encoded tracks. -/
structure LavalinkPlaylist where
  name : String
  selectedTrack : Int
  pluginInfo : List (String × Json) := []
  tracks : List LavalinkTrack

/-- Decimal string of a natural number (as template literals render it). -/
def natStr (n : Nat) : String := String.mk (natChars n)

/-- `validatePlaylistInfo` (lines 217-224). -/
def validatePlaylistInfo (p : PlaylistInfo) : Except String Unit :=
  if p.name = "" then .error "Playlist name is required"
  else if p.selectedTrack < 0 then .error "Selected track must be a non-negative number"
  else .ok ()

/-- `validateTracks` (lines 229-239): error on an empty list; `console.warn`
(returned as a warning string) when the count exceeds a positive
`maxTracks`. -/
def validateTracks (opts : PlaylistEncoderOptions) (tracks : List LavalinkTrack) :
    Except String (List String) :=
  if tracks = [] then .error "Playlist must contain at least one track"
  else if opts.maxTracks > 0 && tracks.length > opts.maxTracks then
    .ok ["Playlist contains " ++ natStr tracks.length
      ++ " tracks, but maxTracks is set to " ++ natStr opts.maxTracks]
  else .ok []

/-- The `limitedTracks.map(...)` body of `encodePlaylist` (lines 44-52): a
track whose token is a non-empty string passes through; otherwise its info
is encoded with the playlist's inner `TrackEncoder`, propagating the first
thrown error. -/
def encodeEachTrack (eopts : EncoderOptions) : List LavalinkTrack →
    Except String (List LavalinkTrack)
  | [] => .ok []
  | t :: ts =>
    match (if t.track ≠ "" then Except.ok t else encodeTrack eopts t.info) with
    | .error e => .error e
    | .ok t2 =>
      match encodeEachTrack eopts ts with
      | .error e => .error e
      | .ok ts2 => .ok (t2 :: ts2)

/-- `encodePlaylist` (lines 32-64): optional validation (with its truncation
warning), `maxTracks` slicing, per-track encoding, and the
`Math.min(selectedTrack, length - 1)` clamp. -/
def encodePlaylist (opts : PlaylistEncoderOptions) (pinfo : PlaylistInfo)
    (tracks : List LavalinkTrack) : Except String (LavalinkPlaylist × List String) :=
  match (if opts.validate then
      match validatePlaylistInfo pinfo with
      | .error e => .error e
      | .ok _ => validateTracks opts tracks
    else (.ok [] : Except String (List String))) with
  | .error e => .error e
  | .ok warnings =>
    let limited := if opts.maxTracks > 0 then tracks.take opts.maxTracks else tracks
    match encodeEachTrack opts.toEncoderOptions limited with
    | .error e => .error e
    | .ok encoded =>
      .ok ({ name := pinfo.name
             selectedTrack := min pinfo.selectedTrack ((encoded.length : Int) - 1)
             pluginInfo := []
             tracks := encoded }, warnings)

/-- `createPlaylist` (lines 69-80). -/
def createPlaylist (opts : PlaylistEncoderOptions) (name : String)
    (trackInfos : List TrackInfo) (selectedTrack : Int) :
    Except String (LavalinkPlaylist × List String) :=
  encodePlaylist opts { name := name, selectedTrack := selectedTrack }
    (trackInfos.map (fun i => { track := "", info := i }))

/-- The generated default name of `mergePlaylists`. -/
def mergedDefaultName (count : Nat) : String :=
  "Merged Playlist (" ++ natStr count ++ " playlists)"

/-- `mergePlaylists` (lines 172-189): concatenate all track lists, take the
first playlist's `selectedTrack` (0 when the list is empty), default the
name via `||` (so an empty `newName` also falls back), and re-encode. -/
def mergePlaylists (opts : PlaylistEncoderOptions) (playlists : List LavalinkPlaylist)
    (newName : Option String) : Except String (LavalinkPlaylist × List String) :=
  let allTracks := (playlists.map (fun p => p.tracks)).flatten
  let sel : Int := match playlists with
    | [] => 0
    | p :: _ => p.selectedTrack
  let name := match newName with
    | some s => if s = "" then mergedDefaultName playlists.length else s
    | none => mergedDefaultName playlists.length
  encodePlaylist opts { name := name, selectedTrack := sel } allTracks

/-- The loop of `splitPlaylist` (lines 198-209), one iteration per chunk:
`k` is the chunk index (the loop variable is `i = k * chunkSize`), and each
iteration encodes `tracks.slice(i, i + chunkSize)` under the derived name
and the chunk-0-only `selectedTrack`. The fuel is bounded below by the
remaining track count, which suffices because every iteration drops
`chunkSize ≥ 1` tracks. -/
def splitGo (opts : PlaylistEncoderOptions) (pname : String) (psel : Int)
    (chunkSize : Nat) : Nat → Nat → List LavalinkTrack →
    Except String (List LavalinkPlaylist × List String)
  | _, _, [] => .ok ([], [])
  | 0, _, _ :: _ => .error "splitPlaylist ran out of fuel"
  | fuel + 1, k, t :: ts =>
    match encodePlaylist opts
        { name := pname ++ " (Part " ++ natStr (k + 1) ++ ")"
          selectedTrack := if k = 0 then psel else 0 }
        ((t :: ts).take chunkSize) with
    | .error e => .error e
    | .ok (pl, ws) =>
      match splitGo opts pname psel chunkSize fuel (k + 1) ((t :: ts).drop chunkSize) with
      | .error e => .error e
      | .ok (pls, ws2) => .ok (pl :: pls, ws ++ ws2)

/-- `splitPlaylist` (lines 194-212). For `chunkSize = 0` the JavaScript loop
makes no progress and never terminates (the specification calls this
undefined behavior); the model returns an error in that case. -/
def splitPlaylist (opts : PlaylistEncoderOptions) (p : LavalinkPlaylist)
    (chunkSize : Nat) : Except String (List LavalinkPlaylist × List String) :=
  if chunkSize = 0 then .error "splitPlaylist diverges for chunkSize 0"
  else splitGo opts p.name p.selectedTrack chunkSize p.tracks.length 0 p.tracks

/-! ## `DiscordTrackEncoder` and the façade (`src/LavalinkEncoder.ts`) -/

/-- A Discord requester. -/
structure Requester where
  id : String
  username : String
  discriminator : Option String := none
deriving DecidableEq

/-- `DiscordTrackInfo`: a `TrackInfo` with requester/guild annotations. -/
structure DiscordTrackInfo extends TrackInfo where
  requester : Requester
  guildId : String
  channelId : String
deriving DecidableEq

/-- `DiscordTrack`. -/
structure DiscordTrack where
  track : String
  info : DiscordTrackInfo
deriving DecidableEq

/-- `DiscordPlaylist`. -/
structure DiscordPlaylist where
  name : String
  selectedTrack : Int
  pluginInfo : List (String × Json) := []
  tracks : List DiscordTrack

/-- `encodeDiscordTrack` (lines 349-372 of the concatenated source): encode
the BARE record with the held `TrackEncoder`, then attach the annotations to
the returned info only. -/
def encodeDiscordTrack (opts : EncoderOptions) (t : TrackInfo) (requester : Requester)
    (guildId channelId : String) : Except String DiscordTrack :=
  match encodeTrack opts t with
  | .error e => .error e
  | .ok enc =>
    .ok { track := enc.track
          info := { toTrackInfo := t
                    requester := requester
                    guildId := guildId
                    channelId := channelId } }

/-- `encodeDiscordPlaylist` (lines 377-405): annotate the INPUT tracks,
encode the playlist with the held `PlaylistEncoder`, and return the encoded
info alongside the annotated (not re-encoded) tracks. -/
def encodeDiscordPlaylist (opts : PlaylistEncoderOptions) (pinfo : PlaylistInfo)
    (tracks : List LavalinkTrack) (requester : Requester) (guildId channelId : String) :
    Except String (DiscordPlaylist × List String) :=
  let discordTracks := tracks.map (fun t =>
    ({ track := t.track
       info := { toTrackInfo := t.info
                 requester := requester
                 guildId := guildId
                 channelId := channelId } } : DiscordTrack))
  match encodePlaylist opts pinfo tracks with
  | .error e => .error e
  | .ok (pl, ws) =>
    .ok ({ name := pl.name
           selectedTrack := pl.selectedTrack
           pluginInfo := pl.pluginInfo
           tracks := discordTracks }, ws)

/-- The configuration a `DiscordTrackEncoder` holds: one `TrackEncoder` and
one `PlaylistEncoder`. -/
structure DiscordTrackEncoderState where
  trackOpts : EncoderOptions
  playlistOpts : PlaylistEncoderOptions
deriving DecidableEq

/-- The `DiscordTrackEncoder` constructor (lines 341-344): it takes NO
options and builds both inner encoders with the all-default configuration. -/
def mkDiscordTrackEncoder : DiscordTrackEncoderState :=
  { trackOpts := resolveEncoderOptions {}
    playlistOpts := resolvePlaylistOptions {} }

/-- The configuration a `LavalinkEncoder` façade holds. -/
structure LavalinkEncoderState where
  trackOpts : EncoderOptions
  playlistOpts : PlaylistEncoderOptions
  discord : DiscordTrackEncoderState
deriving DecidableEq

/-- The `LavalinkEncoder` constructor (lines 25-29): the options are passed
to the `TrackEncoder` and the `PlaylistEncoder`, while the
`DiscordTrackEncoder` is constructed with no options at all. -/
def mkLavalinkEncoder (o : OptionsArg) : LavalinkEncoderState :=
  { trackOpts := resolveEncoderOptions o
    playlistOpts := resolvePlaylistOptions o
    discord := mkDiscordTrackEncoder }

/-- Façade `encodeTrack` (lines 32-34). -/
def facadeEncodeTrack (st : LavalinkEncoderState) (t : TrackInfo) :
    Except String LavalinkTrack :=
  encodeTrack st.trackOpts t

/-- Façade `encodePlaylist` (lines 82-84). -/
def facadeEncodePlaylist (st : LavalinkEncoderState) (pinfo : PlaylistInfo)
    (tracks : List LavalinkTrack) : Except String (LavalinkPlaylist × List String) :=
  encodePlaylist st.playlistOpts pinfo tracks

/-- Façade `encodeDiscordTrack` (lines 145-156): delegates to the held
`DiscordTrackEncoder`. -/
def facadeEncodeDiscordTrack (st : LavalinkEncoderState) (t : TrackInfo)
    (requester : Requester) (guildId channelId : String) : Except String DiscordTrack :=
  encodeDiscordTrack st.discord.trackOpts t requester guildId channelId

/-- Façade `encodeDiscordPlaylist` (lines 158-170). -/
def facadeEncodeDiscordPlaylist (st : LavalinkEncoderState) (pinfo : PlaylistInfo)
    (tracks : List LavalinkTrack) (requester : Requester) (guildId channelId : String) :
    Except String (DiscordPlaylist × List String) :=
  encodeDiscordPlaylist st.discord.playlistOpts pinfo tracks requester guildId channelId

/-- Façade `updateOptions` (lines 308-312): unlike the constructor, this
propagates to all three encoders (the Discord encoder's own `updateOptions`
forwards to both of its inner encoders). -/
def facadeUpdateOptions (st : LavalinkEncoderState) (o : OptionsArg) : LavalinkEncoderState :=
  { trackOpts := updateEncoderOptions st.trackOpts o
    playlistOpts := updatePlaylistOptions st.playlistOpts o
    discord := { trackOpts := updateEncoderOptions st.discord.trackOpts o
                 playlistOpts := updatePlaylistOptions st.discord.playlistOpts o } }

/-! ## `decodeMultipleTracks` (`src/utils/index.ts`, lines 352-368) -/

/-- One element of a `decodeMultipleTracks` result: `{success: true, track}`
or `{success: false, error, index}`. -/
inductive DecodeResult (α : Type) where
  | success (track : α)
  | failure (error : String) (index : Nat)
deriving DecidableEq

/-- `decodeMultipleTracks`: apply the decoder to every token, catching each
per-item exception into a failure entry carrying that item's index. -/
def decodeMultipleTracks {α : Type} (decoder : String → Except String α)
    (encodedTracks : List String) : List (DecodeResult α) :=
  encodedTracks.enum.map (fun p =>
    match decoder p.2 with
    | .ok t => .success t
    | .error e => .failure e p.1)

/-! ## Inversion of the serialization pipeline: numbers -/

/-- A context that cannot extend a just-parsed number: empty input or a
non-digit first character. -/
def numOkB : List Char → Bool
  | [] => true
  | c :: _ => !isDig c

theorem digitChar_spec : ∀ n, n < 10 → isDig (digitChar n) = true ∧ digVal (digitChar n) = n := by
  decide

theorem hexVal_hexChar : ∀ n, n < 16 → hexVal (hexChar n) = some n := by
  decide

/-- Accumulator fold of decimal digits, as `parseDigitsAcc` computes it. -/
def digFold (l : List Char) (acc : Nat) : Nat :=
  l.foldl (fun a c => a * 10 + digVal c) acc

theorem natCharsGo_spec : ∀ n fuel, n ≤ fuel →
    (∀ c ∈ natCharsGo fuel n, isDig c = true) ∧ natCharsGo fuel n ≠ [] ∧
      digFold (natCharsGo fuel n) 0 = n := by
  intro n
  induction n using Nat.strong_induction_on with
  | _ n ih =>
    intro fuel hf
    match fuel with
    | 0 =>
      have hn : n = 0 := by omega
      subst hn
      exact ⟨by decide, by decide, by decide⟩
    | fuel + 1 =>
      by_cases h10 : n < 10
      · refine ⟨?_, ?_, ?_⟩ <;> simp only [natCharsGo, if_pos h10]
        · intro c hc
          simp only [List.mem_singleton] at hc
          exact hc ▸ (digitChar_spec n h10).1
        · simp
        · simpa [digFold] using (digitChar_spec n h10).2
      · have hlt : n / 10 < n := Nat.div_lt_self (by omega) (by omega)
        have hrec := ih (n / 10) hlt fuel (by omega)
        obtain ⟨hdig, hne, hval⟩ := hrec
        have hd10 : n % 10 < 10 := Nat.mod_lt _ (by omega)
        refine ⟨?_, ?_, ?_⟩ <;> simp only [natCharsGo, if_neg h10]
        · intro c hc
          rcases List.mem_append.mp hc with h | h
          · exact hdig c h
          · simp only [List.mem_singleton] at h
            exact h ▸ (digitChar_spec _ hd10).1
        · simp
        · simp only [digFold, List.foldl_append]
          rw [digFold] at hval
          rw [hval]
          simp only [List.foldl_cons, List.foldl_nil]
          rw [(digitChar_spec _ hd10).2]
          omega

theorem parseDigitsAcc_append (l rest : List Char) (hl : ∀ c ∈ l, isDig c = true) (acc : Nat) :
    parseDigitsAcc acc (l ++ rest) = parseDigitsAcc (digFold l acc) rest := by
  induction l generalizing acc with
  | nil => simp [digFold]
  | cons c cs ih =>
    have hc := hl c (by simp)
    simp only [List.cons_append, parseDigitsAcc, hc, if_pos, digFold, List.foldl_cons]
    exact ih (fun d hd => hl d (by simp [hd])) _

theorem parseDigitsAcc_stop (acc : Nat) (rest : List Char) (h : numOkB rest = true) :
    parseDigitsAcc acc rest = (acc, rest) := by
  cases rest with
  | nil => rfl
  | cons c cs =>
    simp only [numOkB, Bool.not_eq_true'] at h
    simp [parseDigitsAcc, h]

theorem parseNatNum_natChars (n : Nat) (rest : List Char) (h : numOkB rest = true) :
    parseNatNum (natChars n ++ rest) = .ok (n, rest) := by
  obtain ⟨hdig, hne, hval⟩ := natCharsGo_spec n n le_rfl
  rw [natChars]
  cases hnc : natCharsGo n n with
  | nil => exact absurd hnc hne
  | cons d ds =>
    rw [hnc] at hdig hval
    have hd : isDig d = true := hdig d (by simp)
    simp only [List.cons_append, parseNatNum, hd, if_pos]
    rw [parseDigitsAcc_append ds rest (fun c hc => hdig c (by simp [hc]))]
    rw [parseDigitsAcc_stop _ _ h]
    simp only [digFold, List.foldl_cons] at hval ⊢
    rw [show 0 * 10 + digVal d = digVal d from by omega] at hval
    rw [hval]

theorem isDig_ne_minus {c : Char} (h : isDig c = true) : ¬(c = '-') := by
  intro he
  rw [he] at h
  exact absurd h (by decide)

theorem parseNumber_intChars (n : Int) (rest : List Char) (h : numOkB rest = true) :
    parseNumber (intChars n ++ rest) = .ok (.num n, rest) := by
  by_cases hneg : n < 0
  · have habs : (-(n.natAbs : Int)) = n := by omega
    simp only [intChars, if_pos hneg, List.cons_append, parseNumber, if_pos]
    rw [parseNatNum_natChars _ _ h]
    simp only [Except.map]
    rw [habs]
  · simp only [intChars, if_neg hneg]
    obtain ⟨hdig, hne, -⟩ := natCharsGo_spec n.toNat n.toNat le_rfl
    rw [natChars]
    cases hnc : natCharsGo n.toNat n.toNat with
    | nil => exact absurd hnc hne
    | cons d ds =>
      rw [hnc] at hdig
      have hd : isDig d = true := hdig d (by simp)
      simp only [List.cons_append, parseNumber, if_neg (isDig_ne_minus hd)]
      rw [show d :: (ds ++ rest) = (d :: ds) ++ rest from rfl, ← hnc, ← natChars]
      rw [parseNatNum_natChars _ _ h]
      have htn : ((n.toNat : Int)) = n := by omega
      simp [Except.map, htn]

/-! ## Inversion of the serialization pipeline: strings -/

theorem stringMkData (s : String) : String.mk s.data = s := rfl

theorem hexVal_zeroChar : hexVal '0' = some 0 := by decide

theorem bs_ne_q : ¬(bsChar = qChar) := by decide

theorem q_ne_u : ¬(qChar = 'u') := by decide

theorem bs_ne_u : ¬(bsChar = 'u') := by decide

theorem unesc_q : unescChar qChar = some qChar := by decide

theorem unesc_bs : unescChar bsChar = some bsChar := by decide

theorem unesc_b : unescChar 'b' = some '\x08' := by decide

theorem unesc_t : unescChar 't' = some '\t' := by decide

theorem unesc_n : unescChar 'n' = some '\n' := by decide

theorem unesc_f : unescChar 'f' = some '\x0c' := by decide

theorem unesc_r : unescChar 'r' = some '\x0d' := by decide

theorem eb_ne_u : ¬('b' = 'u') := by decide

theorem et_ne_u : ¬('t' = 'u') := by decide

theorem en_ne_u : ¬('n' = 'u') := by decide

theorem ef_ne_u : ¬('f' = 'u') := by decide

theorem er_ne_u : ¬('r' = 'u') := by decide

theorem parseStringBody_escChar (c : Char) (rest : List Char) :
    parseStringBody (escChar c ++ rest) = (parseStringBody rest).map (fun p => (c :: p.1, p.2)) := by
  by_cases h1 : c = qChar
  · subst h1
    rw [show escChar qChar = [bsChar, qChar] from by decide, List.cons_append,
      List.cons_append, List.nil_append, parseStringBody.eq_def]
    simp [bs_ne_q, q_ne_u, unesc_q]
  · by_cases h2 : c = bsChar
    · subst h2
      rw [show escChar bsChar = [bsChar, bsChar] from by decide, List.cons_append,
        List.cons_append, List.nil_append, parseStringBody.eq_def]
      simp [bs_ne_q, bs_ne_u, unesc_bs]
    · by_cases h3 : c = '\x08'
      · subst h3
        rw [show escChar '\x08' = [bsChar, 'b'] from by decide, List.cons_append,
          List.cons_append, List.nil_append, parseStringBody.eq_def]
        simp [bs_ne_q, eb_ne_u, unesc_b]
      · by_cases h4 : c = '\t'
        · subst h4
          rw [show escChar '\t' = [bsChar, 't'] from by decide, List.cons_append,
            List.cons_append, List.nil_append, parseStringBody.eq_def]
          simp [bs_ne_q, et_ne_u, unesc_t]
        · by_cases h5 : c = '\n'
          · subst h5
            rw [show escChar '\n' = [bsChar, 'n'] from by decide, List.cons_append,
              List.cons_append, List.nil_append, parseStringBody.eq_def]
            simp [bs_ne_q, en_ne_u, unesc_n]
          · by_cases h6 : c = '\x0c'
            · subst h6
              rw [show escChar '\x0c' = [bsChar, 'f'] from by decide, List.cons_append,
                List.cons_append, List.nil_append, parseStringBody.eq_def]
              simp [bs_ne_q, ef_ne_u, unesc_f]
            · by_cases h7 : c = '\x0d'
              · subst h7
                rw [show escChar '\x0d' = [bsChar, 'r'] from by decide, List.cons_append,
                  List.cons_append, List.nil_append, parseStringBody.eq_def]
                simp [bs_ne_q, er_ne_u, unesc_r]
              · by_cases h8 : c.toNat < 32
                · have harith : ∀ x : Nat, x / 16 * 16 + x % 16 = x := fun x => by omega
                  simp only [escChar, if_neg h1, if_neg h2, if_neg h3, if_neg h4, if_neg h5,
                    if_neg h6, if_neg h7, if_pos h8, List.cons_append, List.nil_append]
                  rw [parseStringBody.eq_def]
                  simp [bs_ne_q, hexVal_zeroChar,
                    hexVal_hexChar _ (by omega : c.toNat / 16 < 16),
                    hexVal_hexChar _ (by omega : c.toNat % 16 < 16),
                    harith, Char.ofNat_toNat]
                · simp only [escChar, if_neg h1, if_neg h2, if_neg h3, if_neg h4, if_neg h5,
                    if_neg h6, if_neg h7, if_neg h8, List.cons_append, List.nil_append]
                  rw [parseStringBody.eq_def]
                  simp [h1, h2]

theorem parseStringBody_escape (cs : List Char) (rest : List Char) :
    parseStringBody (escapeChars cs ++ qChar :: rest) = .ok (cs, rest) := by
  induction cs with
  | nil =>
    rw [show escapeChars [] = [] from rfl, List.nil_append, parseStringBody.eq_def]
    simp
  | cons c cs ih =>
    rw [escapeChars, List.append_assoc, parseStringBody_escChar, ih]
    rfl

/-! ## Inversion of the serialization pipeline: values -/

theorem isDig_ne (c : Char) (h : isDig c = true) :
    ¬(c = qChar) ∧ ¬(c = 't') ∧ ¬(c = 'f') ∧ ¬(c = 'n') ∧ ¬(c = lbraceChar) ∧ ¬(c = '[')
      ∧ ¬(c = ']') := by
  refine ⟨?_, ?_, ?_, ?_, ?_, ?_, ?_⟩ <;>
    (intro he; rw [he] at h; exact absurd h (by decide))

theorem minus_ne :
    ¬('-' = qChar) ∧ ¬('-' = 't') ∧ ¬('-' = 'f') ∧ ¬('-' = 'n') ∧ ¬('-' = lbraceChar)
      ∧ ¬('-' = '[') ∧ ¬('-' = ']') := by decide

theorem t_ne : ¬('t' = qChar) := by decide

theorem f_ne : ¬('f' = qChar) ∧ ¬('f' = 't') := by decide

theorem n_ne : ¬('n' = qChar) ∧ ¬('n' = 't') ∧ ¬('n' = 'f') := by decide

theorem lb_ne : ¬(lbraceChar = qChar) ∧ ¬(lbraceChar = 't') ∧ ¬(lbraceChar = 'f')
    ∧ ¬(lbraceChar = 'n') := by decide

theorem br_ne : ¬('[' = qChar) ∧ ¬('[' = 't') ∧ ¬('[' = 'f') ∧ ¬('[' = 'n')
    ∧ ¬('[' = lbraceChar) := by decide

theorem q_ne_rb : ¬(qChar = rbraceChar) := by decide

theorem rb_ne_comma : ¬(rbraceChar = ',') := by decide

theorem rbk_ne_comma : ¬(']' = ',') := by decide

theorem numOk_nil : numOkB [] = true := rfl

theorem numOk_comma (x : List Char) : numOkB (',' :: x) = true := by
  simp only [numOkB]; decide

theorem numOk_rbrace (x : List Char) : numOkB (rbraceChar :: x) = true := by
  simp only [numOkB]; decide

theorem numOk_rbrack (x : List Char) : numOkB (']' :: x) = true := by
  simp only [numOkB]; decide

/-- Every rendered JSON value is non-empty, and its first character is
neither `]` nor `,` (what the array/object loops dispatch on). -/
theorem renderJson_cons (j : Json) :
    ∃ c t, renderJson j = c :: t ∧ ¬(c = ']') ∧ ¬(c = ',') := by
  cases j with
  | str s =>
    exact ⟨qChar, escapeChars s.data ++ [qChar], by simp [renderJson, renderString],
      by decide, by decide⟩
  | num n =>
    by_cases hneg : n < 0
    · exact ⟨'-', natChars n.natAbs, by simp [renderJson, intChars, if_pos hneg],
        by decide, by decide⟩
    · obtain ⟨hdig, hne, -⟩ := natCharsGo_spec n.toNat n.toNat le_rfl
      rw [← natChars] at hdig hne
      cases hnc : natChars n.toNat with
      | nil => exact absurd hnc hne
      | cons d ds =>
        have hd : isDig d = true := hdig d (by rw [hnc]; simp)
        refine ⟨d, ds, by simp [renderJson, intChars, if_neg hneg, hnc],
          (isDig_ne d hd).2.2.2.2.2.2, ?_⟩
        intro he; rw [he] at hd; exact absurd hd (by decide)
  | bool b => cases b with
    | true => exact ⟨'t', ['r', 'u', 'e'], by simp [renderJson], by decide, by decide⟩
    | false => exact ⟨'f', ['a', 'l', 's', 'e'], by simp [renderJson], by decide, by decide⟩
  | null => exact ⟨'n', ['u', 'l', 'l'], by simp [renderJson], by decide, by decide⟩
  | obj fields => cases fields with
    | nil => exact ⟨lbraceChar, [rbraceChar], by simp [renderJson], by decide, by decide⟩
    | cons f fs =>
      exact ⟨lbraceChar, renderMembers (f :: fs) ++ [rbraceChar],
        by simp [renderJson], by decide, by decide⟩
  | arr elems => cases elems with
    | nil => exact ⟨'[', [']'], by simp [renderJson], by decide, by decide⟩
    | cons e es =>
      exact ⟨'[', renderElems (e :: es) ++ [']'], by simp [renderJson], by decide, by decide⟩

/-- A rendered non-empty element list starts with the first element's first
character, which is not `]`. -/
theorem renderElems_cons (e : Json) (es : List Json) :
    ∃ c t, renderElems (e :: es) = c :: t ∧ ¬(c = ']') := by
  obtain ⟨c, t, hct, hcrb, -⟩ := renderJson_cons e
  cases es with
  | nil => exact ⟨c, t, by simp [renderElems, hct], hcrb⟩
  | cons g gs =>
    exact ⟨c, t ++ ',' :: renderElems (g :: gs), by simp [renderElems, hct], hcrb⟩

/-- A rendered non-empty member list starts with the key's opening quote. -/
theorem renderMembers_cons (k : String) (v : Json) (fs : List (String × Json)) :
    ∃ t, renderMembers ((k, v) :: fs) = qChar :: t := by
  cases fs with
  | nil =>
    exact ⟨escapeChars k.data ++ [qChar] ++ ':' :: renderJson v,
      by simp [renderMembers, renderString]⟩
  | cons g gs =>
    exact ⟨escapeChars k.data ++ [qChar] ++ ':' :: renderJson v
        ++ ',' :: renderMembers (g :: gs),
      by simp [renderMembers, renderString]⟩


mutual

/-- Structural size of a JSON value, measuring parser recursion depth. -/
def szV : Json → Nat
  | .str _ => 1
  | .num _ => 1
  | .bool _ => 1
  | .null => 1
  | .obj fields => 1 + szM fields
  | .arr elems => 1 + szE elems

/-- Structural size of an object member list. -/
def szM : List (String × Json) → Nat
  | [] => 0
  | (_, v) :: fs => 1 + szV v + szM fs

/-- Structural size of an array element list. -/
def szE : List Json → Nat
  | [] => 0
  | e :: es => 1 + szV e + szE es

end

theorem natChars_ne_nil (n : Nat) : natChars n ≠ [] := by
  rw [natChars]; exact (natCharsGo_spec n n le_rfl).2.1

mutual

/-- A value's structural size is at most its rendered length. -/
theorem szV_le_render : ∀ j : Json, szV j ≤ (renderJson j).length
  | .str s => by simp [szV, renderJson, renderString]
  | .num n => by
    by_cases hneg : n < 0
    · simp [szV, renderJson, intChars, if_pos hneg]
    · simp only [szV, renderJson, intChars, if_neg hneg]
      have := natChars_ne_nil n.toNat
      have := List.length_pos.mpr this
      omega
  | .bool true => by simp [szV, renderJson]
  | .bool false => by simp [szV, renderJson]
  | .null => by simp [szV, renderJson]
  | .obj [] => by simp [szV, szM, renderJson]
  | .obj (f :: fs) => by
    have h := szM_le_render (f :: fs)
    simp only [szV, renderJson, List.length_append, List.length_cons]
    omega
  | .arr [] => by simp [szV, szE, renderJson]
  | .arr (e :: es) => by
    have h := szE_le_render (e :: es)
    simp only [szV, renderJson, List.length_append, List.length_cons]
    omega

/-- A member list's structural size is at most one more than its rendered
length. -/
theorem szM_le_render : ∀ fs : List (String × Json), szM fs ≤ (renderMembers fs).length + 1
  | [] => by simp [szM, renderMembers]
  | [(k, v)] => by
    have h := szV_le_render v
    simp only [szM, renderMembers, renderString, List.length_append, List.length_cons]
    omega
  | (k, v) :: g :: gs => by
    have h1 := szV_le_render v
    have h2 := szM_le_render (g :: gs)
    simp only [szM] at h2
    simp only [szM, renderMembers, renderString, List.length_append, List.length_cons]
    omega

/-- An element list's structural size is at most one more than its rendered
length. -/
theorem szE_le_render : ∀ es : List Json, szE es ≤ (renderElems es).length + 1
  | [] => by simp [szE, renderElems]
  | [e] => by
    have h := szV_le_render e
    simp only [szE, szE.eq_1, renderElems, List.length_append, List.length_cons]
    omega
  | e :: g :: gs => by
    have h1 := szV_le_render e
    have h2 := szE_le_render (g :: gs)
    simp only [szE] at h2
    simp only [szE, renderElems, List.length_append, List.length_cons]
    omega

end

/-- Parsing inverts rendering: with fuel exceeding the value's structural
size, a rendered value (or member list, or element list) followed by a
suitable continuation parses back to itself, leaving the continuation. -/
theorem parse_render_inv : ∀ fuel : Nat,
    (∀ (j : Json) (rest : List Char), numOkB rest = true → szV j < fuel →
      parseValue fuel (renderJson j ++ rest) = .ok (j, rest)) ∧
    (∀ (fields : List (String × Json)) (rest : List Char), fields ≠ [] →
      szM fields < fuel →
      parseMembers fuel (renderMembers fields ++ rbraceChar :: rest) = .ok (fields, rest)) ∧
    (∀ (elems : List Json) (rest : List Char), elems ≠ [] → szE elems < fuel →
      parseElems fuel (renderElems elems ++ ']' :: rest) = .ok (elems, rest)) := by
  intro fuel
  induction fuel with
  | zero =>
    exact ⟨fun j rest hn hl => absurd hl (by omega),
      fun fl rest hn hl => absurd hl (by omega),
      fun el rest hn hl => absurd hl (by omega)⟩
  | succ fuel ih =>
    obtain ⟨ihV, ihM, ihE⟩ := ih
    refine ⟨?_, ?_, ?_⟩
    · intro j rest hrest hsz
      cases j with
      | str s =>
        rw [show renderJson (.str s) ++ rest
            = qChar :: (escapeChars s.data ++ qChar :: rest) from by
          simp [renderJson, renderString]]
        simp only [parseValue]
        simp [parseStringBody_escape, stringMkData, Except.map]
      | num n =>
        by_cases hneg : n < 0
        · rw [show renderJson (.num n) ++ rest = '-' :: (natChars n.natAbs ++ rest) from by
            simp [renderJson, intChars, if_pos hneg]]
          simp only [parseValue]
          simp only [minus_ne.1, minus_ne.2.1, minus_ne.2.2.1, minus_ne.2.2.2.1,
            minus_ne.2.2.2.2.1, minus_ne.2.2.2.2.2.1, if_neg, ite_false, if_false]
          rw [if_pos (show (decide True || isDig '-') = true from by decide)]
          rw [show '-' :: (natChars n.natAbs ++ rest) = intChars n ++ rest from by
            simp [intChars, if_pos hneg]]
          exact parseNumber_intChars n rest hrest
        · obtain ⟨hdig, hnenil, -⟩ := natCharsGo_spec n.toNat n.toNat le_rfl
          rw [← natChars] at hdig hnenil
          cases hnc : natChars n.toNat with
          | nil => exact absurd hnc hnenil
          | cons d ds =>
            have hd : isDig d = true := hdig d (by rw [hnc]; simp)
            obtain ⟨hq, ht, hf, hn2, hlb, hbr, -⟩ := isDig_ne d hd
            rw [show renderJson (.num n) ++ rest = d :: (ds ++ rest) from by
              simp [renderJson, intChars, if_neg hneg, hnc]]
            simp only [parseValue]
            simp only [hq, ht, hf, hn2, hlb, hbr, hd, if_neg, ite_false, if_false,
              Bool.or_true, ite_true, if_true]
            rw [show d :: (ds ++ rest) = intChars n ++ rest from by
              simp [intChars, if_neg hneg, hnc]]
            exact parseNumber_intChars n rest hrest
      | bool b =>
        cases b with
        | true =>
          rw [show renderJson (.bool true) ++ rest = 't' :: 'r' :: 'u' :: 'e' :: rest from by
            simp [renderJson]]
          simp only [parseValue]
          simp [t_ne]
        | false =>
          rw [show renderJson (.bool false) ++ rest
              = 'f' :: 'a' :: 'l' :: 's' :: 'e' :: rest from by
            simp [renderJson]]
          simp only [parseValue]
          simp [f_ne.1, f_ne.2]
      | null =>
        rw [show renderJson .null ++ rest = 'n' :: 'u' :: 'l' :: 'l' :: rest from by
          simp [renderJson]]
        simp only [parseValue]
        simp [n_ne.1, n_ne.2.1, n_ne.2.2]
      | obj fields =>
        cases fields with
        | nil =>
          rw [show renderJson (.obj []) ++ rest = lbraceChar :: rbraceChar :: rest from by
            simp [renderJson]]
          simp only [parseValue]
          simp [lb_ne.1, lb_ne.2.1, lb_ne.2.2.1, lb_ne.2.2.2]
        | cons f fs =>
          obtain ⟨k, v⟩ := f
          obtain ⟨S, hS⟩ := renderMembers_cons k v fs
          rw [show renderJson (.obj ((k, v) :: fs)) ++ rest
              = lbraceChar :: (qChar :: (S ++ rbraceChar :: rest)) from by
            simp [renderJson, hS]]
          simp only [parseValue]
          simp only [lb_ne.1, lb_ne.2.1, lb_ne.2.2.1, lb_ne.2.2.2, q_ne_rb, if_neg,
            ite_false, ite_true, eq_self_iff_true, if_false, if_true]
          rw [show qChar :: (S ++ rbraceChar :: rest)
              = renderMembers ((k, v) :: fs) ++ rbraceChar :: rest from by rw [hS]; simp]
          rw [ihM ((k, v) :: fs) rest (by simp) (by simp only [szV] at hsz; omega)]
          rfl
      | arr elems =>
        cases elems with
        | nil =>
          rw [show renderJson (.arr []) ++ rest = '[' :: ']' :: rest from by
            simp [renderJson]]
          simp only [parseValue]
          simp [br_ne.1, br_ne.2.1, br_ne.2.2.1, br_ne.2.2.2.1, br_ne.2.2.2.2]
        | cons e es =>
          obtain ⟨c, S, hce, hcrb⟩ := renderElems_cons e es
          rw [show renderJson (.arr (e :: es)) ++ rest
              = '[' :: (c :: (S ++ ']' :: rest)) from by
            simp [renderJson, hce]]
          simp only [parseValue]
          simp only [br_ne.1, br_ne.2.1, br_ne.2.2.1, br_ne.2.2.2.1, br_ne.2.2.2.2,
            hcrb, if_neg, ite_false, ite_true, eq_self_iff_true, if_false, if_true]
          rw [show c :: (S ++ ']' :: rest) = renderElems (e :: es) ++ ']' :: rest from by
            rw [hce]; simp]
          rw [ihE (e :: es) rest (by simp) (by simp only [szV] at hsz; omega)]
          rfl
    · intro fields rest hne hsz
      cases fields with
      | nil => exact absurd rfl hne
      | cons f fs =>
        obtain ⟨k, v⟩ := f
        cases fs with
        | nil =>
          rw [show renderMembers [(k, v)] ++ rbraceChar :: rest
              = qChar :: (escapeChars k.data
                ++ qChar :: (':' :: (renderJson v ++ rbraceChar :: rest))) from by
            simp [renderMembers, renderString]]
          simp only [parseMembers]
          simp only [ite_true, eq_self_iff_true, if_true, parseStringBody_escape]
          rw [ihV v (rbraceChar :: rest) (numOk_rbrace rest)
            (by simp only [szM] at hsz; omega)]
          simp [rb_ne_comma, stringMkData, Except.map]
        | cons g gs =>
          obtain ⟨k2, v2⟩ := g
          rw [show renderMembers ((k, v) :: (k2, v2) :: gs) ++ rbraceChar :: rest
              = qChar :: (escapeChars k.data ++ qChar :: (':' :: (renderJson v
                ++ ',' :: (renderMembers ((k2, v2) :: gs) ++ rbraceChar :: rest)))) from by
            simp [renderMembers, renderString]]
          simp only [parseMembers]
          simp only [ite_true, eq_self_iff_true, if_true, parseStringBody_escape]
          rw [ihV v (',' :: (renderMembers ((k2, v2) :: gs) ++ rbraceChar :: rest))
            (numOk_comma _) (by simp only [szM] at hsz; omega)]
          simp only [ite_true, eq_self_iff_true, if_true]
          rw [ihM ((k2, v2) :: gs) rest (by simp) (by simp only [szM] at hsz ⊢; omega)]
          simp [stringMkData, Except.map]
    · intro elems rest hne hsz
      cases elems with
      | nil => exact absurd rfl hne
      | cons e es =>
        cases es with
        | nil =>
          rw [show renderElems [e] ++ ']' :: rest = renderJson e ++ ']' :: rest from by
            simp [renderElems]]
          simp only [parseElems]
          rw [ihV e (']' :: rest) (numOk_rbrack rest) (by simp only [szE] at hsz; omega)]
          simp [rbk_ne_comma]
        | cons g gs =>
          rw [show renderElems (e :: g :: gs) ++ ']' :: rest
              = renderJson e ++ ',' :: (renderElems (g :: gs) ++ ']' :: rest) from by
            simp [renderElems]]
          simp only [parseElems]
          rw [ihV e (',' :: (renderElems (g :: gs) ++ ']' :: rest)) (numOk_comma _)
            (by simp only [szE] at hsz; omega)]
          simp only [ite_true, eq_self_iff_true, if_true]
          rw [ihE (g :: gs) rest (by simp) (by simp only [szE] at hsz ⊢; omega)]
          simp [Except.map]

/-- `JSON.parse` inverts `JSON.stringify`. -/
theorem parseJson_render (j : Json) : parseJson (renderJson j) = .ok j := by
  have h := (parse_render_inv ((renderJson j).length + 1)).1 j [] rfl
    (by have := szV_le_render j; omega)
  rw [List.append_nil] at h
  rw [parseJson, h]

/-! ## Inversion of the UTF-8 layer -/

theorem utf8EncodeChar_ne_nil (c : Char) : utf8EncodeChar c ≠ [] := by
  rw [utf8EncodeChar]
  split
  · simp
  · split
    · simp
    · split <;> simp

theorem utf8DecodeGo_encChar (fuel : Nat) (c : Char) (tail : List Nat) :
    utf8DecodeGo (fuel + 1) (utf8EncodeChar c ++ tail) = c :: utf8DecodeGo fuel tail := by
  have hv : c.toNat < 55296 ∨ (57344 ≤ c.toNat ∧ c.toNat < 1114112) := c.valid
  by_cases h1 : c.toNat < 128
  · rw [show utf8EncodeChar c = [c.toNat] from by simp [utf8EncodeChar, if_pos h1],
      List.cons_append, List.nil_append]
    simp only [utf8DecodeGo]
    rw [if_pos h1, Char.ofNat_toNat]
  · by_cases h2 : c.toNat < 2048
    · rw [show utf8EncodeChar c = [192 + c.toNat / 64, 128 + c.toNat % 64] from by
        simp [utf8EncodeChar, if_neg h1, if_pos h2], List.cons_append, List.cons_append,
        List.nil_append]
      simp only [utf8DecodeGo]
      rw [if_neg (by omega), if_neg (by omega), if_pos (by omega),
        if_pos (show isCont (128 + c.toNat % 64) = true from by simp [isCont]; omega)]
      rw [show (192 + c.toNat / 64 - 192) * 64 + (128 + c.toNat % 64 - 128) = c.toNat from
        by omega]
      rw [Char.ofNat_toNat]
    · by_cases h3 : c.toNat < 65536
      · rw [show utf8EncodeChar c
            = [224 + c.toNat / 4096, 128 + c.toNat / 64 % 64, 128 + c.toNat % 64] from by
          simp [utf8EncodeChar, if_neg h1, if_neg h2, if_pos h3], List.cons_append,
          List.cons_append, List.cons_append, List.nil_append]
        simp only [utf8DecodeGo]
        rw [if_neg (by omega), if_neg (by omega), if_neg (by omega), if_pos (by omega),
          if_pos (show (isCont (128 + c.toNat / 64 % 64) && isCont (128 + c.toNat % 64))
            = true from by simp [isCont]; omega)]
        rw [show (224 + c.toNat / 4096 - 224) * 4096 + (128 + c.toNat / 64 % 64 - 128) * 64
            + (128 + c.toNat % 64 - 128) = c.toNat from by omega]
        rw [Char.ofNat_toNat]
      · rw [show utf8EncodeChar c = [240 + c.toNat / 262144, 128 + c.toNat / 4096 % 64,
            128 + c.toNat / 64 % 64, 128 + c.toNat % 64] from by
          simp [utf8EncodeChar, if_neg h1, if_neg h2, if_neg h3], List.cons_append,
          List.cons_append, List.cons_append, List.cons_append, List.nil_append]
        simp only [utf8DecodeGo]
        rw [if_neg (by omega), if_neg (by omega), if_neg (by omega), if_neg (by omega),
          if_pos (by omega),
          if_pos (show (isCont (128 + c.toNat / 4096 % 64) && (isCont (128 + c.toNat / 64 % 64)
            && isCont (128 + c.toNat % 64))) = true from by simp [isCont]; omega)]
        rw [show (240 + c.toNat / 262144 - 240) * 262144 + (128 + c.toNat / 4096 % 64 - 128)
            * 4096 + (128 + c.toNat / 64 % 64 - 128) * 64 + (128 + c.toNat % 64 - 128)
            = c.toNat from by omega]
        rw [Char.ofNat_toNat]

theorem utf8DecodeGo_nil (fuel : Nat) : utf8DecodeGo fuel [] = [] := by
  cases fuel <;> rfl

theorem utf8DecodeGo_encode (cs : List Char) :
    ∀ fuel : Nat, (utf8Encode cs).length ≤ fuel → utf8DecodeGo fuel (utf8Encode cs) = cs := by
  induction cs with
  | nil => intro fuel _; rw [show utf8Encode [] = [] from rfl, utf8DecodeGo_nil]
  | cons c cs ih =>
    intro fuel hf
    have hk : 1 ≤ (utf8EncodeChar c).length :=
      List.length_pos.mpr (utf8EncodeChar_ne_nil c)
    rw [utf8Encode, List.length_append] at hf
    match fuel, (by omega : 1 ≤ fuel) with
    | f + 1, _ =>
      rw [utf8Encode, utf8DecodeGo_encChar, ih f (by omega)]

/-- `TextDecoder` inverts `TextEncoder`. -/
theorem utf8_decode_encode (cs : List Char) : utf8Decode (utf8Encode cs) = cs :=
  utf8DecodeGo_encode cs (utf8Encode cs).length le_rfl

/-- UTF-8 output bytes are bytes. -/
theorem utf8EncodeChar_lt (c : Char) : ∀ b ∈ utf8EncodeChar c, b < 256 := by
  have hv : c.toNat < 55296 ∨ (57344 ≤ c.toNat ∧ c.toNat < 1114112) := c.valid
  intro b hb
  by_cases h1 : c.toNat < 128
  · rw [show utf8EncodeChar c = [c.toNat] from by simp [utf8EncodeChar, if_pos h1]] at hb
    simp at hb
    omega
  · by_cases h2 : c.toNat < 2048
    · rw [show utf8EncodeChar c = [192 + c.toNat / 64, 128 + c.toNat % 64] from by
        simp [utf8EncodeChar, if_neg h1, if_pos h2]] at hb
      simp at hb
      omega
    · by_cases h3 : c.toNat < 65536
      · rw [show utf8EncodeChar c
            = [224 + c.toNat / 4096, 128 + c.toNat / 64 % 64, 128 + c.toNat % 64] from by
          simp [utf8EncodeChar, if_neg h1, if_neg h2, if_pos h3]] at hb
        simp at hb
        omega
      · rw [show utf8EncodeChar c = [240 + c.toNat / 262144, 128 + c.toNat / 4096 % 64,
            128 + c.toNat / 64 % 64, 128 + c.toNat % 64] from by
          simp [utf8EncodeChar, if_neg h1, if_neg h2, if_neg h3]] at hb
        simp at hb
        omega

theorem utf8Encode_lt (cs : List Char) : ∀ b ∈ utf8Encode cs, b < 256 := by
  induction cs with
  | nil => intro b hb; simp [utf8Encode] at hb
  | cons c cs ih =>
    intro b hb
    rw [utf8Encode] at hb
    rcases List.mem_append.mp hb with h | h
    · exact utf8EncodeChar_lt c b h
    · exact ih b h

/-! ## Inversion of the base64 layer -/

theorem b64Rev_b64Look : ∀ a, a < 64 → b64Rev (b64Look a) = a := by decide

theorem b64Look_ne_eq : ∀ v, ¬(b64Look v = '=') := by
  intro v
  by_cases hv : v < 64
  · revert hv
    revert v
    decide
  · rw [b64Look, List.getD_eq_default _ _ (by simp [b64Alphabet]; omega)]
    decide

theorem firstEqIdx_append (a b : List Char) (ha : ∀ c ∈ a, ¬(c = '=')) :
    firstEqIdx (a ++ b) = a.length + firstEqIdx b := by
  induction a with
  | nil => simp [firstEqIdx]
  | cons c cs ih =>
    rw [List.cons_append, firstEqIdx, if_neg (ha c (by simp))]
    rw [ih (fun d hd => ha d (by simp [hd]))]
    simp [List.length_cons]
    omega

theorem getD_append_right (a b : List Char) (n : Nat) (d : Char) (h : a.length ≤ n) :
    (a ++ b).getD n d = b.getD (n - a.length) d := by
  simp [List.getD, List.getElem?_append_right h]

/-- The full-triples part of `fromByteArray` (the main encoding loop). -/
def b64EncTriples : List Nat → List Char
  | b0 :: b1 :: b2 :: rest =>
    b64Look ((b0 * 65536 + b1 * 256 + b2) / 262144)
      :: b64Look ((b0 * 65536 + b1 * 256 + b2) / 4096 % 64)
      :: b64Look ((b0 * 65536 + b1 * 256 + b2) / 64 % 64)
      :: b64Look ((b0 * 65536 + b1 * 256 + b2) % 64) :: b64EncTriples rest
  | _ => []

/-- `fromByteArray` splits into its triples loop and its tail branch. -/
theorem b64Encode_decomp : ∀ bytes : List Nat,
    b64Encode bytes = b64EncTriples (bytes.take (bytes.length / 3 * 3))
      ++ b64Encode (bytes.drop (bytes.length / 3 * 3))
  | [] => rfl
  | [b0] => by simp [b64EncTriples]
  | [b0, b1] => by simp [b64EncTriples]
  | b0 :: b1 :: b2 :: rest => by
    have ih := b64Encode_decomp rest
    have hlen : (b0 :: b1 :: b2 :: rest).length / 3 * 3 = rest.length / 3 * 3 + 3 := by
      simp [List.length_cons]
      omega
    rw [hlen]
    rw [show (b0 :: b1 :: b2 :: rest).take (rest.length / 3 * 3 + 3)
        = b0 :: b1 :: b2 :: rest.take (rest.length / 3 * 3) from by
      simp [List.take_succ_cons]]
    rw [show (b0 :: b1 :: b2 :: rest).drop (rest.length / 3 * 3 + 3)
        = rest.drop (rest.length / 3 * 3) from by
      simp [List.drop_succ_cons]]
    rw [b64Encode, b64EncTriples, ih]
    simp

theorem b64EncTriples_len : ∀ bytes : List Nat, bytes.length % 3 = 0 →
    (b64EncTriples bytes).length = bytes.length / 3 * 4
  | [] => by intro h; rfl
  | [b0] => by intro h; simp at h
  | [b0, b1] => by intro h; simp at h
  | b0 :: b1 :: b2 :: rest => by
    intro h
    have hr : rest.length % 3 = 0 := by simp [List.length_cons] at h; omega
    rw [b64EncTriples]
    simp only [List.length_cons, b64EncTriples_len rest hr]
    omega

theorem b64EncTriples_noEq : ∀ bytes : List Nat, ∀ c ∈ b64EncTriples bytes, ¬(c = '=')
  | [] => by intro c hc; simp [b64EncTriples] at hc
  | [b0] => by intro c hc; simp [b64EncTriples] at hc
  | [b0, b1] => by intro c hc; simp [b64EncTriples] at hc
  | b0 :: b1 :: b2 :: rest => by
    intro c hc
    rw [b64EncTriples] at hc
    simp only [List.mem_cons] at hc
    rcases hc with h | h | h | h | h
    · exact h ▸ b64Look_ne_eq _
    · exact h ▸ b64Look_ne_eq _
    · exact h ▸ b64Look_ne_eq _
    · exact h ▸ b64Look_ne_eq _
    · exact b64EncTriples_noEq rest c h

theorem b64DecodeQuads_encTriples : ∀ bytes : List Nat, (∀ b ∈ bytes, b < 256) →
    bytes.length % 3 = 0 → b64DecodeQuads (b64EncTriples bytes) = bytes
  | [] => by intro _ _; rfl
  | [b0] => by intro _ h; simp at h
  | [b0, b1] => by intro _ h; simp at h
  | b0 :: b1 :: b2 :: rest => by
    intro hb h
    have hr : rest.length % 3 = 0 := by simp [List.length_cons] at h; omega
    have h0 : b0 < 256 := hb b0 (by simp)
    have h1 : b1 < 256 := hb b1 (by simp)
    have h2 : b2 < 256 := hb b2 (by simp)
    rw [b64EncTriples, b64DecodeQuads]
    rw [b64Rev_b64Look _ (by omega), b64Rev_b64Look _ (by omega),
      b64Rev_b64Look _ (by omega), b64Rev_b64Look _ (by omega)]
    rw [b64DecodeQuads_encTriples rest (fun b hbm => hb b (by simp [hbm])) hr]
    congr 1
    · omega
    congr 1
    · omega
    congr 1
    omega

theorem firstEqIdx_all (a : List Char) (ha : ∀ c ∈ a, ¬(c = '=')) :
    firstEqIdx a = a.length := by
  induction a with
  | nil => rfl
  | cons c cs ih =>
    rw [firstEqIdx, if_neg (ha c (by simp)), ih (fun d hd => ha d (by simp [hd]))]
    simp

theorem b64Decode_triples (w : List Nat) (hb : ∀ b ∈ w, b < 256) (hw : w.length % 3 = 0) :
    b64Decode (b64EncTriples w) = .ok w := by
  have hTlen : (b64EncTriples w).length = w.length / 3 * 4 := b64EncTriples_len w hw
  have hIdx : firstEqIdx (b64EncTriples w) = (b64EncTriples w).length :=
    firstEqIdx_all _ (b64EncTriples_noEq w)
  simp only [b64Decode, hIdx]
  rw [if_neg (by omega : ¬((b64EncTriples w).length % 4 ≠ 0))]
  simp only [ite_true, eq_self_iff_true, if_true, gt_iff_lt, lt_irrefl, ite_false, if_false]
  norm_num
  rw [show ((b64EncTriples w).length + 3) / 4 * 4 = (b64EncTriples w).length from by omega]
  rw [List.take_length, b64DecodeQuads_encTriples w hb hw]
  rw [if_neg (by omega : ¬(((b64EncTriples w).length : Int) * 3 / 4 < 0))]
  rw [show (((b64EncTriples w).length : Int) * 3 / 4).toNat = w.length from by
    rw [hTlen]; omega]
  rw [show w.length - w.length = 0 from by omega]
  simp

theorem b64Decode_tail1 (w : List Nat) (x : Nat) (hb : ∀ b ∈ w, b < 256) (hx : x < 256)
    (hw : w.length % 3 = 0) :
    b64Decode (b64EncTriples w ++ [b64Look (x / 4), b64Look (x % 4 * 16), '=', '='])
      = .ok (w ++ [x]) := by
  have hTlen : (b64EncTriples w).length = w.length / 3 * 4 := b64EncTriples_len w hw
  have hIdx : firstEqIdx (b64EncTriples w ++ [b64Look (x / 4), b64Look (x % 4 * 16), '=', '='])
      = (b64EncTriples w).length + 2 := by
    rw [firstEqIdx_append _ _ (b64EncTriples_noEq w)]
    rw [firstEqIdx, if_neg (b64Look_ne_eq _), firstEqIdx, if_neg (b64Look_ne_eq _),
      firstEqIdx, if_pos rfl]
  simp only [b64Decode, hIdx]
  rw [if_neg (by
    simp only [List.length_append, List.length_cons, List.length_nil]
    omega)]
  rw [show (b64EncTriples w ++ [b64Look (x / 4), b64Look (x % 4 * 16), '=', '=']).length
      = (b64EncTriples w).length + 4 from by simp]
  rw [show (if (b64EncTriples w).length + 2 = (b64EncTriples w).length + 4 then 0
      else 4 - ((b64EncTriples w).length + 2) % 4) = 2 from by
    rw [if_neg (by omega)]; omega]
  rw [if_pos (by omega : (2 : Nat) > 0)]
  rw [show ((b64EncTriples w).length + 2 - 4 + 3) / 4 * 4 = (b64EncTriples w).length from by
    omega]
  rw [List.take_left, b64DecodeQuads_encTriples w hb hw]
  rw [if_pos (rfl : (2 : Nat) = 2)]
  rw [show (b64EncTriples w ++ [b64Look (x / 4), b64Look (x % 4 * 16), '=', '=']).getD
      (b64EncTriples w).length 'A' = b64Look (x / 4) from by
    rw [getD_append_right _ _ _ _ le_rfl]
    simp]
  rw [show (b64EncTriples w ++ [b64Look (x / 4), b64Look (x % 4 * 16), '=', '=']).getD
      ((b64EncTriples w).length + 1) 'A' = b64Look (x % 4 * 16) from by
    rw [getD_append_right _ _ _ _ (by omega)]
    rw [show (b64EncTriples w).length + 1 - (b64EncTriples w).length = 1 from by omega]
    simp]
  rw [b64Rev_b64Look _ (by omega), b64Rev_b64Look _ (by omega)]
  rw [show (x / 4 * 4 + x % 4 * 16 / 16) % 256 = x from by omega]
  split
  next h =>
    exfalso
    push_cast at h
    omega
  next h =>
    have hK : (((((b64EncTriples w).length + 2 : Nat) : Int) + ((2 : Nat) : Int)) * 3 / 4
        - ((2 : Nat) : Int)).toNat - (w ++ [x]).length = 0 := by
      simp only [List.length_append, List.length_cons, List.length_nil]
      push_cast
      omega
    rw [hK]
    simp

theorem b64Decode_tail2 (w : List Nat) (x y : Nat) (hb : ∀ b ∈ w, b < 256) (hx : x < 256)
    (hy : y < 256) (hw : w.length % 3 = 0) :
    b64Decode (b64EncTriples w ++ [b64Look ((x * 256 + y) / 1024),
        b64Look ((x * 256 + y) / 16 % 64), b64Look ((x * 256 + y) * 4 % 64), '='])
      = .ok (w ++ [x, y]) := by
  have hTlen : (b64EncTriples w).length = w.length / 3 * 4 := b64EncTriples_len w hw
  have hIdx : firstEqIdx (b64EncTriples w ++ [b64Look ((x * 256 + y) / 1024),
      b64Look ((x * 256 + y) / 16 % 64), b64Look ((x * 256 + y) * 4 % 64), '='])
      = (b64EncTriples w).length + 3 := by
    rw [firstEqIdx_append _ _ (b64EncTriples_noEq w)]
    rw [firstEqIdx, if_neg (b64Look_ne_eq _), firstEqIdx, if_neg (b64Look_ne_eq _),
      firstEqIdx, if_neg (b64Look_ne_eq _), firstEqIdx, if_pos rfl]
  simp only [b64Decode, hIdx]
  rw [if_neg (by
    simp only [List.length_append, List.length_cons, List.length_nil]
    omega)]
  rw [show (b64EncTriples w ++ [b64Look ((x * 256 + y) / 1024),
      b64Look ((x * 256 + y) / 16 % 64), b64Look ((x * 256 + y) * 4 % 64), '=']).length
      = (b64EncTriples w).length + 4 from by simp]
  rw [show (if (b64EncTriples w).length + 3 = (b64EncTriples w).length + 4 then 0
      else 4 - ((b64EncTriples w).length + 3) % 4) = 1 from by
    rw [if_neg (by omega)]; omega]
  rw [if_pos (by omega : (1 : Nat) > 0)]
  rw [show ((b64EncTriples w).length + 3 - 4 + 3) / 4 * 4 = (b64EncTriples w).length from by
    omega]
  rw [List.take_left, b64DecodeQuads_encTriples w hb hw]
  rw [if_neg (by omega : ¬((1 : Nat) = 2)), if_pos (rfl : (1 : Nat) = 1)]
  rw [show (b64EncTriples w ++ [b64Look ((x * 256 + y) / 1024),
      b64Look ((x * 256 + y) / 16 % 64), b64Look ((x * 256 + y) * 4 % 64), '=']).getD
      (b64EncTriples w).length 'A' = b64Look ((x * 256 + y) / 1024) from by
    rw [getD_append_right _ _ _ _ le_rfl]
    simp]
  rw [show (b64EncTriples w ++ [b64Look ((x * 256 + y) / 1024),
      b64Look ((x * 256 + y) / 16 % 64), b64Look ((x * 256 + y) * 4 % 64), '=']).getD
      ((b64EncTriples w).length + 1) 'A' = b64Look ((x * 256 + y) / 16 % 64) from by
    rw [getD_append_right _ _ _ _ (by omega)]
    rw [show (b64EncTriples w).length + 1 - (b64EncTriples w).length = 1 from by omega]
    simp]
  rw [show (b64EncTriples w ++ [b64Look ((x * 256 + y) / 1024),
      b64Look ((x * 256 + y) / 16 % 64), b64Look ((x * 256 + y) * 4 % 64), '=']).getD
      ((b64EncTriples w).length + 2) 'A' = b64Look ((x * 256 + y) * 4 % 64) from by
    rw [getD_append_right _ _ _ _ (by omega)]
    rw [show (b64EncTriples w).length + 2 - (b64EncTriples w).length = 2 from by omega]
    simp]
  rw [b64Rev_b64Look _ (by omega), b64Rev_b64Look _ (by omega), b64Rev_b64Look _ (by omega)]
  rw [show (x * 256 + y) / 1024 * 1024 + (x * 256 + y) / 16 % 64 * 16
      + (x * 256 + y) * 4 % 64 / 4 = x * 256 + y from by omega]
  rw [show (x * 256 + y) / 256 % 256 = x from by omega]
  rw [show (x * 256 + y) % 256 = y from by omega]
  split
  next h =>
    exfalso
    push_cast at h
    omega
  next h =>
    have hK : (((((b64EncTriples w).length + 3 : Nat) : Int) + ((1 : Nat) : Int)) * 3 / 4
        - ((1 : Nat) : Int)).toNat - (w ++ [x, y]).length = 0 := by
      simp only [List.length_append, List.length_cons, List.length_nil]
      push_cast
      omega
    rw [hK]
    simp

/-- `toByteArray` inverts `fromByteArray` on byte lists. -/
theorem b64_decode_encode (bytes : List Nat) (hb : ∀ b ∈ bytes, b < 256) :
    b64Decode (b64Encode bytes) = .ok bytes := by
  rw [b64Encode_decomp bytes]
  have htake : (bytes.take (bytes.length / 3 * 3)).length % 3 = 0 := by
    simp only [List.length_take]
    omega
  have hbtake : ∀ b ∈ bytes.take (bytes.length / 3 * 3), b < 256 :=
    fun b hbm => hb b (List.mem_of_mem_take hbm)
  have hdlen : (bytes.drop (bytes.length / 3 * 3)).length = bytes.length % 3 := by
    simp only [List.length_drop]
    omega
  cases hd : bytes.drop (bytes.length / 3 * 3) with
  | nil =>
    rw [show b64Encode [] = [] from rfl, List.append_nil]
    rw [b64Decode_triples _ hbtake htake]
    rw [hd] at hdlen
    simp only [List.length_nil] at hdlen
    rw [List.take_of_length_le (by omega)]
  | cons xx xs =>
    have hxx : xx < 256 := hb xx (List.mem_of_mem_drop (by rw [hd]; simp))
    cases xs with
    | nil =>
      rw [show b64Encode [xx] = [b64Look (xx / 4), b64Look (xx % 4 * 16), '=', '='] from rfl]
      rw [b64Decode_tail1 _ _ hbtake hxx htake]
      rw [show bytes.take (bytes.length / 3 * 3) ++ [xx] = bytes from by
        rw [← hd, List.take_append_drop]]
    | cons yy ys =>
      have hyy : yy < 256 := hb yy (List.mem_of_mem_drop (by rw [hd]; simp))
      cases ys with
      | nil =>
        rw [show b64Encode [xx, yy] = [b64Look ((xx * 256 + yy) / 1024),
          b64Look ((xx * 256 + yy) / 16 % 64), b64Look ((xx * 256 + yy) * 4 % 64), '='] from rfl]
        rw [b64Decode_tail2 _ _ _ hbtake hxx hyy htake]
        rw [show bytes.take (bytes.length / 3 * 3) ++ [xx, yy] = bytes from by
          rw [← hd, List.take_append_drop]]
      | cons zz zs =>
        exfalso
        rw [hd] at hdlen
        simp only [List.length_cons] at hdlen
        omega

/-! ## Round-trip of the full token pipeline -/

/-- `decodeTrackData` inverts `encodeTrackData` exactly. -/
theorem decodeTrackData_encodeTrackData (j : Json) :
    decodeTrackData (encodeTrackData j) = .ok j := by
  rw [encodeTrackData, decodeTrackData]
  rw [show (String.mk (b64Encode (utf8Encode (renderJson j)))).data
      = b64Encode (utf8Encode (renderJson j)) from rfl]
  rw [b64_decode_encode _ (utf8Encode_lt _)]
  show parseJson (utf8Decode (utf8Encode (renderJson j))) = .ok j
  rw [utf8_decode_encode, parseJson_render]

/-- `decodeTrack` inverts the token builder. -/
theorem decodeTrack_mkToken (opts : EncoderOptions) (r : TrackInfo) :
    decodeTrack (mkToken opts r) = .ok (.obj (projectTrackData opts r)) := by
  rw [decodeTrack, mkToken, decodeTrackData_encodeTrackData]

/-! ## Lookups in the projected field list -/

theorem project_lookup_artwork (opts : EncoderOptions) (r : TrackInfo) :
    (projectTrackData opts r).lookup "artworkUrl"
      = (match r.artworkUrl with
         | some a => if opts.includeArtwork = true ∧ ¬(a = "") then some (Json.str a) else none
         | none => none) := by
  cases har : r.artworkUrl with
  | none =>
    cases his : r.isrc with
    | none => simp [projectTrackData, har, his, List.lookup]
    | some i =>
      by_cases hi : i = "" <;> cases hb : opts.includeISRC <;>
        simp [projectTrackData, har, his, hi, hb, List.lookup]
  | some a =>
    cases his : r.isrc with
    | none =>
      by_cases ha : a = "" <;> cases hb : opts.includeArtwork <;>
        simp [projectTrackData, har, his, ha, hb, List.lookup]
    | some i =>
      by_cases ha : a = "" <;> cases hb : opts.includeArtwork <;>
        by_cases hi : i = "" <;> cases hc : opts.includeISRC <;>
          simp [projectTrackData, har, his, ha, hb, hi, hc, List.lookup]

theorem project_lookup_isrc (opts : EncoderOptions) (r : TrackInfo) :
    (projectTrackData opts r).lookup "isrc"
      = (match r.isrc with
         | some i => if opts.includeISRC = true ∧ ¬(i = "") then some (Json.str i) else none
         | none => none) := by
  cases har : r.artworkUrl with
  | none =>
    cases his : r.isrc with
    | none => simp [projectTrackData, har, his, List.lookup]
    | some i =>
      by_cases hi : i = "" <;> cases hb : opts.includeISRC <;>
        simp [projectTrackData, har, his, hi, hb, List.lookup]
  | some a =>
    cases his : r.isrc with
    | none =>
      by_cases ha : a = "" <;> cases hb : opts.includeArtwork <;>
        simp [projectTrackData, har, his, ha, hb, List.lookup]
    | some i =>
      by_cases ha : a = "" <;> cases hb : opts.includeArtwork <;>
        by_cases hi : i = "" <;> cases hc : opts.includeISRC <;>
          simp [projectTrackData, har, his, ha, hb, hi, hc, List.lookup]

/-! ## Claim C1 -/

/-- **C1**: round-trip of the transcoder. For every record `r` that passes
validation and any configuration `opts`, `encodeTrack` succeeds with the
token `mkToken opts r`, decoding that token recovers exactly the projected
object, and in that object every required field maps to its projected value
(`sourceName` defaulted when the record's value is empty), `artworkUrl`
is present iff `includeArtwork` is on and the record's value is present and
non-empty (and then equals it), and `isrc` likewise; a field excluded by
configuration is absent (`lookup` returns `none`). -/
theorem c1_encode_decode_roundtrip (opts : EncoderOptions) (r : TrackInfo)
    (h : validateTrackInfo r = .ok ()) :
    encodeTrack opts r = .ok { track := mkToken opts r, info := r } ∧
    decodeTrack (mkToken opts r) = .ok (.obj (projectTrackData opts r)) ∧
    (projectTrackData opts r).lookup "identifier" = some (.str r.identifier) ∧
    (projectTrackData opts r).lookup "isSeekable" = some (.bool r.isSeekable) ∧
    (projectTrackData opts r).lookup "author" = some (.str r.author) ∧
    (projectTrackData opts r).lookup "length" = some (.num r.length) ∧
    (projectTrackData opts r).lookup "isStream" = some (.bool r.isStream) ∧
    (projectTrackData opts r).lookup "position" = some (.num r.position) ∧
    (projectTrackData opts r).lookup "title" = some (.str r.title) ∧
    (projectTrackData opts r).lookup "uri" = some (.str r.uri) ∧
    (projectTrackData opts r).lookup "sourceName"
      = some (.str (if r.sourceName = "" then opts.sourceName else r.sourceName)) ∧
    (projectTrackData opts r).lookup "artworkUrl"
      = (match r.artworkUrl with
         | some a => if opts.includeArtwork = true ∧ ¬(a = "") then some (Json.str a) else none
         | none => none) ∧
    (projectTrackData opts r).lookup "isrc"
      = (match r.isrc with
         | some i => if opts.includeISRC = true ∧ ¬(i = "") then some (Json.str i) else none
         | none => none) := by
  refine ⟨?_, decodeTrack_mkToken opts r, rfl, rfl, rfl, rfl, rfl, rfl, rfl, rfl, rfl,
    project_lookup_artwork opts r, project_lookup_isrc opts r⟩
  cases hv : opts.validate with
  | true => simp [encodeTrack, hv, h]
  | false => simp [encodeTrack, hv]

/-- The specification's example record (§8), with an artwork URL and no
ISRC. -/
def exampleTrackRecord : TrackInfo :=
  { identifier := "dQw4w9WgXcQ"
    isSeekable := true
    author := "Rick Astley"
    length := 212000
    isStream := false
    position := 0
    title := "Never Gonna Give You Up"
    uri := "https://www.youtube.com/watch?v=dQw4w9WgXcQ"
    sourceName := "youtube"
    artworkUrl := some "https://img.youtube.com/vi/dQw4w9WgXcQ/default.jpg"
    isrc := none }

theorem c1_encode_decode_roundtrip_witness :
    validateTrackInfo exampleTrackRecord = .ok () ∧
    decodeTrack (mkToken (resolveEncoderOptions {}) exampleTrackRecord)
      = .ok (.obj (projectTrackData (resolveEncoderOptions {}) exampleTrackRecord)) :=
  ⟨by rfl, (c1_encode_decode_roundtrip (resolveEncoderOptions {}) exampleTrackRecord
    (by rfl)).2.1⟩

/-! ## Claim C2 -/

/-- **C2** (corrected): `decodeTrack` rejects a token whose length is not a
multiple of 4 (which covers the 21-character `"invalid-base64-string"`
example) and a token whose decoded bytes fail structural parsing (the
`"dGVzdA=="` example, whose bytes spell `test`), wrapping each failure as
`Failed to decode track: …` and returning no partial value. The claim's
other half is false: a character outside the base64 alphabet is NOT
rejected — the lookup table yields `undefined`, which the arithmetic
coerces to 0 — so a wrong-alphabet token of valid shape decodes
successfully (see the counterexample). -/
theorem c2_decode_malformed (s : String) :
    (s.data.length % 4 ≠ 0 →
      decodeTrack s
        = .error "Failed to decode track: Invalid string. Length must be a multiple of 4") ∧
    (∀ bytes e, b64Decode s.data = .ok bytes →
      parseJson (utf8Decode bytes) = .error e →
      decodeTrack s = .error ("Failed to decode track: " ++ e)) ∧
    decodeTrack "invalid-base64-string"
      = .error "Failed to decode track: Invalid string. Length must be a multiple of 4" ∧
    decodeTrack "dGVzdA==" = .error ("Failed to decode track: " ++ "Unexpected token in JSON") := by
  refine ⟨?_, ?_, by rfl, by rfl⟩
  · intro h
    have hb : b64Decode s.data = .error "Invalid string. Length must be a multiple of 4" := by
      rw [b64Decode, if_pos h]
    simp only [decodeTrack, decodeTrackData, hb]
    rfl
  · intro bytes e hb hp
    simp only [decodeTrack, decodeTrackData, hb, hp]

/-- **C2 counterexample**: `"N?=="` uses `?`, a character outside every
base64 alphabet, yet `decodeTrack` accepts it: the unknown character
contributes sextet 0 and the token decodes to the JSON number 4. -/
theorem c2_wrong_alphabet_accepted : decodeTrack "N?==" = .ok (.num 4) := by rfl

theorem c2_decode_malformed_witness :
    (("AAAAA" : String).data.length % 4 ≠ 0 ∧
      decodeTrack "AAAAA"
        = .error "Failed to decode track: Invalid string. Length must be a multiple of 4") ∧
    (b64Decode ("dGVzdA==" : String).data = .ok [116, 101, 115, 116] ∧
      parseJson (utf8Decode [116, 101, 115, 116]) = .error "Unexpected token in JSON" ∧
      decodeTrack "dGVzdA==" = .error ("Failed to decode track: " ++ "Unexpected token in JSON")) :=
  ⟨⟨by decide, (c2_decode_malformed "AAAAA").1 (by decide)⟩,
   ⟨by rfl, by rfl,
    (c2_decode_malformed "dGVzdA==").2.1 [116, 101, 115, 116] "Unexpected token in JSON"
      (by rfl) (by rfl)⟩⟩

theorem applyOverride_empty (t : TrackInfo) : applyOverride t {} = t := rfl

/-! ## Claim C4 -/

/-- **C4**: annotation is token-invariant. `encodeDiscordTrack` is exactly
`encodeTrack` on the bare record followed by a pure structural attachment of
the requester/guild/channel context to the returned info; in particular the
token of the annotated result (projected through `Except.map`) equals the
token of the bare encode, so the context fields never participate in the
token encoding. -/
theorem c4_annotation_token_invariant (opts : EncoderOptions) (t : TrackInfo)
    (req : Requester) (gid cid : String) :
    encodeDiscordTrack opts t req gid cid
      = (encodeTrack opts t).map (fun enc =>
          ({ track := enc.track
             info := { toTrackInfo := t
                       requester := req
                       guildId := gid
                       channelId := cid } } : DiscordTrack)) ∧
    (encodeDiscordTrack opts t req gid cid).map (fun d => d.track)
      = (encodeTrack opts t).map (fun enc => enc.track) := by
  cases he : encodeTrack opts t with
  | error e => simp [encodeDiscordTrack, he, Except.map]
  | ok enc => simp [encodeDiscordTrack, he, Except.map]

/-! ## Claim C10 -/

/-- **C10**: the implicit `createTrack` invariants. With no overrides, a
non-empty identifier, title, author and uri and a non-negative length,
`createTrack` succeeds and the constructed record satisfies
`isSeekable = (0 < length)`, `isStream = (length = 0)`, `position = 0` and
`sourceName` equal to the encoder's configured default — the
stream/seekable/length cross-field relationship the transcoder itself never
checks. -/
theorem c10_createTrack_invariants (opts : EncoderOptions)
    (identifier title author uri : String) (length : Int)
    (hid : identifier ≠ "") (ht : title ≠ "") (ha : author ≠ "")
    (hu : uri ≠ "") (hl : 0 ≤ length) :
    ∃ lt, createTrack opts identifier title author length uri {} = .ok lt ∧
      lt.info.isSeekable = decide (0 < length) ∧
      lt.info.isStream = decide (length = 0) ∧
      lt.info.position = 0 ∧
      lt.info.sourceName = opts.sourceName := by
  refine ⟨{ track := mkToken opts
              { identifier := identifier
                title := title
                author := author
                length := length
                uri := uri
                isSeekable := decide (0 < length)
                isStream := decide (length = 0)
                position := 0
                sourceName := opts.sourceName
                artworkUrl := none
                isrc := none }
            info := { identifier := identifier
                      title := title
                      author := author
                      length := length
                      uri := uri
                      isSeekable := decide (0 < length)
                      isStream := decide (length = 0)
                      position := 0
                      sourceName := opts.sourceName
                      artworkUrl := none
                      isrc := none } }, ?_, rfl, rfl, rfl, rfl⟩
  have hval : validateTrackInfo
      { identifier := identifier
        title := title
        author := author
        length := length
        uri := uri
        isSeekable := decide (0 < length)
        isStream := decide (length = 0)
        position := 0
        sourceName := opts.sourceName
        artworkUrl := none
        isrc := none } = .ok () := by
    rw [validateTrackInfo]
    rw [if_neg hid, if_neg ht, if_neg ha, if_neg (by omega : ¬(length < 0)), if_neg hu]
  rw [createTrack, applyOverride_empty]
  cases hv : opts.validate with
  | true => simp [encodeTrack, hv, hval]
  | false => simp [encodeTrack, hv]

theorem c10_createTrack_invariants_witness :
    ∃ lt, createTrack (resolveEncoderOptions {}) "id0" "Song" "Artist" 60000 "http://u" {}
        = .ok lt ∧
      lt.info.isSeekable = decide ((0 : Int) < 60000) ∧
      lt.info.isStream = decide ((60000 : Int) = 0) ∧
      lt.info.position = 0 ∧
      lt.info.sourceName = (resolveEncoderOptions {}).sourceName :=
  c10_createTrack_invariants (resolveEncoderOptions {}) "id0" "Song" "Artist" "http://u" 60000
    (by decide) (by decide) (by decide) (by decide) (by decide)

/-! ## Behaviour of `encodePlaylist` on already-encoded tracks -/

theorem encodeEachTrack_passthrough (eopts : EncoderOptions) (ts : List LavalinkTrack)
    (h : ∀ t ∈ ts, t.track ≠ "") : encodeEachTrack eopts ts = .ok ts := by
  induction ts with
  | nil => rfl
  | cons t ts ih =>
    have ht : t.track ≠ "" := h t (List.mem_cons_self t ts)
    have hts : ∀ u ∈ ts, u.track ≠ "" := fun u hu => h u (List.mem_cons_of_mem t hu)
    simp only [encodeEachTrack, ht, ih hts]
    simp [ht]

/-- The closed form of `encodePlaylist` when every track already carries a
non-empty token (so the map is a passthrough) and the info validates
whenever validation is on. -/
theorem encodePlaylist_spec (opts : PlaylistEncoderOptions) (pinfo : PlaylistInfo)
    (tracks : List LavalinkTrack)
    (htok : ∀ t ∈ tracks, t.track ≠ "")
    (hne : tracks ≠ [])
    (hval : opts.validate = true → pinfo.name ≠ "" ∧ 0 ≤ pinfo.selectedTrack) :
    encodePlaylist opts pinfo tracks
      = .ok ({ name := pinfo.name
               selectedTrack := min pinfo.selectedTrack
                 (((if opts.maxTracks > 0 then tracks.take opts.maxTracks
                    else tracks).length : Int) - 1)
               pluginInfo := []
               tracks := if opts.maxTracks > 0 then tracks.take opts.maxTracks else tracks },
             if opts.validate && (decide (opts.maxTracks > 0)
                 && decide (tracks.length > opts.maxTracks)) then
               ["Playlist contains " ++ natStr tracks.length
                 ++ " tracks, but maxTracks is set to " ++ natStr opts.maxTracks]
             else []) := by
  have hlim : ∀ t ∈ (if opts.maxTracks > 0 then tracks.take opts.maxTracks else tracks),
      t.track ≠ "" := by
    intro t ht
    apply htok
    by_cases hm : opts.maxTracks > 0
    · rw [if_pos hm] at ht; exact List.mem_of_mem_take ht
    · rw [if_neg hm] at ht; exact ht
  have henc := encodeEachTrack_passthrough opts.toEncoderOptions _ hlim
  cases hv : opts.validate with
  | false =>
    simp only [encodePlaylist, hv, Bool.false_and, if_false, henc]
    rfl
  | true =>
    have hvp : validatePlaylistInfo pinfo = .ok () := by
      rw [validatePlaylistInfo, if_neg (hval hv).1, if_neg (by have := (hval hv).2; omega)]
    have hvt : validateTracks opts tracks
        = .ok (if decide (opts.maxTracks > 0) && decide (tracks.length > opts.maxTracks) then
            ["Playlist contains " ++ natStr tracks.length
              ++ " tracks, but maxTracks is set to " ++ natStr opts.maxTracks]
          else []) := by
      rw [validateTracks, if_neg hne]
      split
      · next hcond => simp [hcond]
      · next hcond => simp [hcond]
    simp only [encodePlaylist, hv, hvp, hvt, henc, Bool.true_and]
    rfl

/-! ## Claim C6 -/

/-- **C6** (corrected): `maxTracks` truncation. For a non-empty input of
already-encoded tracks (and info that validates when validation is on), a
positive `maxTracks` keeps exactly the first `min(n, maxTracks)` tracks in
input order and `maxTracks = 0` keeps all `n`, with no error either way;
but the warning is NOT emitted whenever `n` exceeds `maxTracks`: it is
produced inside the validation path, so it appears iff `validate` is on AND
`maxTracks > 0` AND `n > maxTracks` (with `validate` off the excess is
dropped silently — see the counterexample). -/
theorem c6_maxTracks_truncation (opts : PlaylistEncoderOptions) (pinfo : PlaylistInfo)
    (tracks : List LavalinkTrack)
    (htok : ∀ t ∈ tracks, t.track ≠ "")
    (hne : tracks ≠ [])
    (hval : opts.validate = true → pinfo.name ≠ "" ∧ 0 ≤ pinfo.selectedTrack) :
    ∃ pl ws, encodePlaylist opts pinfo tracks = .ok (pl, ws) ∧
      (opts.maxTracks > 0 → pl.tracks = tracks.take opts.maxTracks) ∧
      (opts.maxTracks = 0 → pl.tracks = tracks) ∧
      (ws ≠ [] ↔ (opts.validate = true ∧ opts.maxTracks > 0 ∧
        tracks.length > opts.maxTracks)) := by
  refine ⟨_, _, encodePlaylist_spec opts pinfo tracks htok hne hval, ?_, ?_, ?_⟩
  · intro hm; rw [if_pos hm]
  · intro hm; rw [if_neg (by omega)]
  · constructor
    · intro hws
      by_cases hv : opts.validate = true
      · by_cases hm : opts.maxTracks > 0
        · by_cases hn : tracks.length > opts.maxTracks
          · exact ⟨hv, hm, hn⟩
          · simp [hv, hm, hn] at hws
        · simp [hv, hm] at hws
      · simp [Bool.not_eq_true] at hv
        simp [hv] at hws
    · rintro ⟨hv, hm, hn⟩
      simp [hv, hm, hn]

/-- A two-track list with distinct non-empty tokens and a shared info
record, for the playlist counterexamples. -/
def twoTracks : List LavalinkTrack :=
  [{ track := "tokA", info := exampleTrackRecord },
   { track := "tokB", info := exampleTrackRecord }]

/-- **C6 counterexample**: with `validate := false` and `maxTracks := 1`,
two input tracks are truncated to one, yet the warning list is empty — the
claim's "a warning is emitted whenever n exceeds maxTracks" fails when
validation is off. -/
theorem c6_truncation_without_warning :
    encodePlaylist (resolvePlaylistOptions { validate := some false, maxTracks := some 1 })
        { name := "pl", selectedTrack := 0 } twoTracks
      = .ok ({ name := "pl"
               selectedTrack := 0
               pluginInfo := []
               tracks := [{ track := "tokA", info := exampleTrackRecord }] }, []) ∧
    twoTracks.length > (resolvePlaylistOptions
      { validate := some false, maxTracks := some 1 }).maxTracks := by
  constructor
  · rfl
  · decide

theorem c6_maxTracks_truncation_witness :
    ∃ pl ws, encodePlaylist (resolvePlaylistOptions { maxTracks := some 1 })
        { name := "pl", selectedTrack := 0 } twoTracks = .ok (pl, ws) ∧
      ((resolvePlaylistOptions { maxTracks := some 1 }).maxTracks > 0 →
        pl.tracks = twoTracks.take (resolvePlaylistOptions { maxTracks := some 1 }).maxTracks) ∧
      ((resolvePlaylistOptions { maxTracks := some 1 }).maxTracks = 0 →
        pl.tracks = twoTracks) ∧
      (ws ≠ [] ↔ ((resolvePlaylistOptions { maxTracks := some 1 }).validate = true ∧
        (resolvePlaylistOptions { maxTracks := some 1 }).maxTracks > 0 ∧
        twoTracks.length > (resolvePlaylistOptions { maxTracks := some 1 }).maxTracks)) :=
  c6_maxTracks_truncation (resolvePlaylistOptions { maxTracks := some 1 })
    { name := "pl", selectedTrack := 0 } twoTracks
    (by decide) (by decide) (fun _ => ⟨by decide, by decide⟩)

/-! ## Claim C8 -/

/-- Claim-side rendering of the specification's fixed check order: each
required-field predicate paired with the error message that names it, in
the order identifier, title, author, length, uri. -/
def requiredChecks (t : TrackInfo) : List (Bool × String) :=
  [(t.identifier == "", "Track identifier is required"),
   (t.title == "", "Track title is required"),
   (t.author == "", "Track author is required"),
   (decide (t.length < 0), "Track length must be a non-negative number"),
   (t.uri == "", "Track URI is required")]

/-- Claim-side: the message of the first failing check, if any. -/
def firstFailingCheck (t : TrackInfo) : Option String :=
  ((requiredChecks t).find? (fun p => p.1)).map (fun p => p.2)

/-- **C8**: validation ordering. With validation enabled, `encodeTrack`
fails exactly on the records with a failing required-field check, and the
error is precisely the message of the FIRST failing check in the fixed
order identifier, title, author, length, uri (never a collection); in
particular a record with both identifier and title empty is reported for
its identifier. -/
theorem c8_validation_ordering (opts : EncoderOptions) (t : TrackInfo)
    (hv : opts.validate = true) :
    (∀ e, encodeTrack opts t = .error e ↔ firstFailingCheck t = some e) ∧
    (t.identifier = "" → t.title = "" →
      encodeTrack opts t = .error "Track identifier is required") := by
  by_cases h1 : t.identifier = "" <;>
    by_cases h2 : t.title = "" <;>
      by_cases h3 : t.author = "" <;>
        by_cases h4 : t.length < 0 <;>
          by_cases h5 : t.uri = "" <;>
            simp [encodeTrack, hv, validateTrackInfo, firstFailingCheck, requiredChecks,
              List.find?, h1, h2, h3, h4, h5, beq_eq_decide]

/-- A record that fails both the identifier and the title check. -/
def doublyInvalidRecord : TrackInfo :=
  { identifier := ""
    isSeekable := true
    author := "Artist"
    length := 1000
    isStream := false
    position := 0
    title := ""
    uri := "http://u"
    sourceName := "web" }

theorem c8_validation_ordering_witness :
    (resolveEncoderOptions {}).validate = true ∧
    encodeTrack (resolveEncoderOptions {}) doublyInvalidRecord
      = .error "Track identifier is required" ∧
    firstFailingCheck doublyInvalidRecord = some "Track identifier is required" :=
  ⟨by decide,
   (c8_validation_ordering (resolveEncoderOptions {}) doublyInvalidRecord (by decide)).2 rfl rfl,
   ((c8_validation_ordering (resolveEncoderOptions {}) doublyInvalidRecord (by decide)).1
     "Track identifier is required").mp
     ((c8_validation_ordering (resolveEncoderOptions {}) doublyInvalidRecord (by decide)).2 rfl rfl)⟩

/-! ## Claim C9 -/

/-- **C9**: batch isolation. `decodeMultipleTracks` returns one result per
input token in input order; the result at position `i` is determined by the
token at position `i` alone — a success entry with the decoded value when
the decoder succeeds there, a failure entry carrying that item's error
message and index `i` when it raises — so a malformed token never disturbs
the results at other positions and never aborts the batch. -/
theorem c9_batch_isolation {α : Type} (decoder : String → Except String α)
    (tokens : List String) :
    (decodeMultipleTracks decoder tokens).length = tokens.length ∧
    (∀ i s, tokens.get? i = some s →
      (decodeMultipleTracks decoder tokens).get? i
        = some (match decoder s with
                | .ok t => DecodeResult.success t
                | .error e => DecodeResult.failure e i)) := by
  constructor
  · simp [decodeMultipleTracks]
  · intro i s hs
    have hi : i < tokens.length := by
      by_contra hge
      rw [List.get?_eq_none.mpr (by omega)] at hs
      exact Option.noConfusion hs
    rw [decodeMultipleTracks, List.get?_map]
    rw [List.enum_get? ..]
    rw [hs]
    rfl

theorem c9_batch_isolation_witness :
    (decodeMultipleTracks decodeTrack ["e30=", "x", "e30="]).length = 3 ∧
    (decodeMultipleTracks decodeTrack ["e30=", "x", "e30="]).get? 0
      = some (DecodeResult.success (Json.obj [])) ∧
    (decodeMultipleTracks decodeTrack ["e30=", "x", "e30="]).get? 1
      = some (DecodeResult.failure
          "Failed to decode track: Invalid string. Length must be a multiple of 4" 1) ∧
    (decodeMultipleTracks decodeTrack ["e30=", "x", "e30="]).get? 2
      = some (DecodeResult.success (Json.obj [])) := by
  have h := c9_batch_isolation decodeTrack ["e30=", "x", "e30="]
  refine ⟨h.1, ?_, ?_, ?_⟩
  · rw [h.2 0 "e30=" rfl]; rfl
  · rw [h.2 1 "x" rfl]; rfl
  · rw [h.2 2 "e30=" rfl]; rfl

/-! ## Claim C5 -/

/-- **C5** (corrected): configuration inheritance. The constructor options
do configure the façade's track and playlist operations (`encodeTrack` and
`encodePlaylist` run under the resolved constructor options), but NOT the
Discord annotation methods: the façade constructs its `DiscordTrackEncoder`
with no arguments, so `encodeDiscordTrack` and `encodeDiscordPlaylist` run
under the all-default configuration whatever was passed (see the
counterexample); only `updateOptions` reaches all three encoders. -/
theorem c5_config_inheritance (o : OptionsArg) :
    (mkLavalinkEncoder o).trackOpts = resolveEncoderOptions o ∧
    (mkLavalinkEncoder o).playlistOpts = resolvePlaylistOptions o ∧
    (∀ t, facadeEncodeTrack (mkLavalinkEncoder o) t = encodeTrack (resolveEncoderOptions o) t) ∧
    (∀ pinfo tracks, facadeEncodePlaylist (mkLavalinkEncoder o) pinfo tracks
      = encodePlaylist (resolvePlaylistOptions o) pinfo tracks) ∧
    (∀ t req gid cid, facadeEncodeDiscordTrack (mkLavalinkEncoder o) t req gid cid
      = encodeDiscordTrack (resolveEncoderOptions {}) t req gid cid) ∧
    (∀ pinfo tracks req gid cid,
      facadeEncodeDiscordPlaylist (mkLavalinkEncoder o) pinfo tracks req gid cid
        = encodeDiscordPlaylist (resolvePlaylistOptions {}) pinfo tracks req gid cid) ∧
    (∀ o2, facadeUpdateOptions (mkLavalinkEncoder o) o2
      = { trackOpts := updateEncoderOptions (resolveEncoderOptions o) o2
          playlistOpts := updatePlaylistOptions (resolvePlaylistOptions o) o2
          discord := { trackOpts := updateEncoderOptions (resolveEncoderOptions {}) o2
                       playlistOpts := updatePlaylistOptions (resolvePlaylistOptions {}) o2 } }) :=
  ⟨rfl, rfl, fun _ => rfl, fun _ _ => rfl, fun _ _ _ _ => rfl, fun _ _ _ _ _ => rfl,
   fun _ => rfl⟩

set_option maxRecDepth 4000 in
/-- **C5 counterexample**: a façade built with `includeArtwork := false`
still annotates with the DEFAULT options: on a record carrying an artwork
URL, its Discord method produces the token of the all-default projection,
which differs from the token the configured options produce. -/
theorem c5_discord_uses_defaults :
    facadeEncodeDiscordTrack (mkLavalinkEncoder { includeArtwork := some false })
        exampleTrackRecord { id := "1", username := "u" } "g" "c"
      = .ok { track := mkToken (resolveEncoderOptions {}) exampleTrackRecord
              info := { toTrackInfo := exampleTrackRecord
                        requester := { id := "1", username := "u" }
                        guildId := "g"
                        channelId := "c" } } ∧
    mkToken (resolveEncoderOptions {}) exampleTrackRecord
      ≠ mkToken (resolveEncoderOptions { includeArtwork := some false }) exampleTrackRecord := by
  constructor
  · rfl
  · decide

/-! ## Characterization of `splitPlaylist` -/

theorem chunkName_ne (pname : String) (k : Nat) :
    pname ++ " (Part " ++ natStr (k + 1) ++ ")" ≠ "" := by
  intro h
  have hlen := congrArg String.length h
  rw [String.length_append, String.length_append, String.length_append] at hlen
  have h7 : (" (Part " : String).length = 7 := rfl
  have h1 : (")" : String).length = 1 := rfl
  have hz : ("" : String).length = 0 := rfl
  omega

theorem splitGo_spec (opts : PlaylistEncoderOptions) (pname : String) (psel : Int)
    (chunkSize : Nat) (hcs : 0 < chunkSize)
    (hmax : opts.maxTracks = 0 ∨ chunkSize ≤ opts.maxTracks) :
    ∀ fuel (k : Nat) (ts : List LavalinkTrack), ts.length ≤ fuel →
      (∀ t ∈ ts, t.track ≠ "") →
      (opts.validate = true → k = 0 → 0 ≤ psel) →
      ∃ chunks, splitGo opts pname psel chunkSize fuel k ts = .ok (chunks, []) ∧
        (chunks.map (fun c => c.tracks)).flatten = ts ∧
        (ts ≠ [] → chunks ≠ []) ∧
        ∀ j (hj : j < chunks.length),
          (chunks.get ⟨j, hj⟩).tracks = (ts.drop (j * chunkSize)).take chunkSize ∧
          (chunks.get ⟨j, hj⟩).name = pname ++ " (Part " ++ natStr (k + j + 1) ++ ")" ∧
          (chunks.get ⟨j, hj⟩).selectedTrack
            = min (if k + j = 0 then psel else 0)
                (((chunks.get ⟨j, hj⟩).tracks.length : Int) - 1) := by
  intro fuel
  induction fuel with
  | zero =>
    intro k ts hlen htok hsel
    have hts : ts = [] := List.length_eq_zero.mp (Nat.le_zero.mp hlen)
    subst hts
    exact ⟨[], rfl, rfl, fun h => absurd rfl h, fun j hj => absurd hj (by simp)⟩
  | succ fuel ih =>
    intro k ts hlen htok hsel
    cases ts with
    | nil => exact ⟨[], rfl, rfl, fun h => absurd rfl h, fun j hj => absurd hj (by simp)⟩
    | cons t ts2 =>
      have hchlen : ((t :: ts2).take chunkSize).length ≤ chunkSize := by
        rw [List.length_take]; omega
      have hchne : (t :: ts2).take chunkSize ≠ [] := by
        cases chunkSize with
        | zero => omega
        | succ n => simp [List.take_succ_cons]
      have hlimited : (if opts.maxTracks > 0 then
          ((t :: ts2).take chunkSize).take opts.maxTracks
          else (t :: ts2).take chunkSize) = (t :: ts2).take chunkSize := by
        rcases hmax with h0 | hle
        · rw [if_neg (by omega)]
        · by_cases hm : opts.maxTracks > 0
          · rw [if_pos hm]
            exact List.take_of_length_le (le_trans hchlen hle)
          · rw [if_neg hm]
      have hws : (decide (opts.maxTracks > 0)
          && decide (((t :: ts2).take chunkSize).length > opts.maxTracks)) = false := by
        rcases hmax with h0 | hle
        · rw [decide_eq_false (p := opts.maxTracks > 0) (by omega), Bool.false_and]
        · rw [decide_eq_false (p := ((t :: ts2).take chunkSize).length > opts.maxTracks)
            (by omega), Bool.and_false]
      have hEnc := encodePlaylist_spec opts
        { name := pname ++ " (Part " ++ natStr (k + 1) ++ ")"
          selectedTrack := if k = 0 then psel else 0 }
        ((t :: ts2).take chunkSize)
        (fun u hu => htok u (List.mem_of_mem_take hu))
        hchne
        (fun hv => ⟨chunkName_ne pname k, by
          by_cases hk : k = 0
          · rw [if_pos hk]; exact hsel hv hk
          · rw [if_neg hk]⟩)
      rw [hlimited, hws] at hEnc
      simp only [Bool.and_false] at hEnc
      rw [if_neg Bool.false_ne_true] at hEnc
      obtain ⟨chunks2, hgo, hflat, hne2, hget⟩ := ih (k + 1) ((t :: ts2).drop chunkSize)
        (by rw [List.length_drop]; simp only [List.length_cons] at hlen ⊢; omega)
        (fun u hu => htok u (List.mem_of_mem_drop hu))
        (fun _ hk1 => absurd hk1 (Nat.succ_ne_zero k))
      refine ⟨{ name := pname ++ " (Part " ++ natStr (k + 1) ++ ")"
                selectedTrack := min (if k = 0 then psel else 0)
                  ((((t :: ts2).take chunkSize).length : Int) - 1)
                pluginInfo := []
                tracks := (t :: ts2).take chunkSize } :: chunks2, ?_, ?_, ?_, ?_⟩
      · simp only [splitGo, hEnc, hgo]
        rfl
      · simp only [List.map_cons, List.flatten_cons, hflat]
        exact List.take_append_drop chunkSize (t :: ts2)
      · intro _
        exact List.cons_ne_nil _ _
      · intro j hj
        cases j with
        | zero =>
          refine ⟨by simp, by simp, ?_⟩
          show min (if k = 0 then psel else 0) ((((t :: ts2).take chunkSize).length : Int) - 1)
            = _
          rw [Nat.add_zero]
          exact rfl
        | succ j =>
          have hj2 : j < chunks2.length := by
            simp only [List.length_cons] at hj; omega
          obtain ⟨ht, hn, hs⟩ := hget j hj2
          refine ⟨?_, ?_, ?_⟩
          · show (chunks2.get ⟨j, hj2⟩).tracks = _
            rw [ht, List.drop_drop, Nat.succ_mul, Nat.add_comm chunkSize (j * chunkSize)]
          · show (chunks2.get ⟨j, hj2⟩).name = _
            rw [hn]
            have harith : k + 1 + j + 1 = k + (j + 1) + 1 := by omega
            rw [harith]
          · show (chunks2.get ⟨j, hj2⟩).selectedTrack = _
            rw [hs, if_neg (show ¬(k + 1 + j = 0) by omega),
              if_neg (show ¬(k + (j + 1) = 0) by omega)]
            exact rfl

/-! ## Claim C3 -/

/-- **C3** (corrected): `splitPlaylist` with `chunkSize ≥ 1` partitions the
track sequence into contiguous in-order chunks of at most `chunkSize`
tracks (chunk `j` holds `tracks[j*chunkSize .. j*chunkSize+chunkSize)`, and
flattening the chunks restores the sequence), each chunk's name carries the
1-based part suffix — but the first chunk's `selectedTrack` is NOT the
parent's value: every chunk is re-encoded through `encodePlaylist`, whose
`Math.min` clamp caps it at the chunk's own length minus 1 (subsequent
chunks get `min 0 (len-1) = 0`). Stated for already-encoded tracks, a
chunk size within `maxTracks` (or `maxTracks = 0`), and a non-negative
parent `selectedTrack` when validation is on. -/
theorem c3_splitPlaylist_chunks (opts : PlaylistEncoderOptions) (p : LavalinkPlaylist)
    (chunkSize : Nat) (hcs : 0 < chunkSize)
    (htok : ∀ t ∈ p.tracks, t.track ≠ "")
    (hmax : opts.maxTracks = 0 ∨ chunkSize ≤ opts.maxTracks)
    (hsel : opts.validate = true → 0 ≤ p.selectedTrack) :
    ∃ chunks, splitPlaylist opts p chunkSize = .ok (chunks, []) ∧
      (chunks.map (fun c => c.tracks)).flatten = p.tracks ∧
      ∀ j (hj : j < chunks.length),
        (chunks.get ⟨j, hj⟩).tracks = (p.tracks.drop (j * chunkSize)).take chunkSize ∧
        (chunks.get ⟨j, hj⟩).tracks.length ≤ chunkSize ∧
        (chunks.get ⟨j, hj⟩).name = p.name ++ " (Part " ++ natStr (j + 1) ++ ")" ∧
        (chunks.get ⟨j, hj⟩).selectedTrack
          = min (if j = 0 then p.selectedTrack else 0)
              (((chunks.get ⟨j, hj⟩).tracks.length : Int) - 1) := by
  obtain ⟨chunks, hgo, hflat, hnech, hget⟩ := splitGo_spec opts p.name p.selectedTrack
    chunkSize hcs hmax p.tracks.length 0 p.tracks le_rfl htok (fun hv _ => hsel hv)
  refine ⟨chunks, ?_, hflat, ?_⟩
  · rw [splitPlaylist, if_neg (by omega)]
    exact hgo
  · intro j hj
    obtain ⟨ht, hn, hs⟩ := hget j hj
    refine ⟨ht, ?_, ?_, ?_⟩
    · rw [ht, List.length_take]; omega
    · rw [hn, Nat.zero_add]
    · rw [hs, Nat.zero_add]

/-- Four already-encoded tracks with distinct tokens, for the split/merge
examples. -/
def splitTracks : List LavalinkTrack :=
  [{ track := "tokA", info := exampleTrackRecord },
   { track := "tokB", info := exampleTrackRecord },
   { track := "tokC", info := exampleTrackRecord },
   { track := "tokD", info := exampleTrackRecord }]

/-- A four-track playlist whose `selectedTrack` (3) exceeds each chunk's
length. -/
def c3Playlist : LavalinkPlaylist :=
  { name := "pl", selectedTrack := 3, pluginInfo := [], tracks := splitTracks }

/-- **C3 counterexample**: splitting the four-track playlist with
`selectedTrack = 3` into chunks of 2 gives a first chunk whose
`selectedTrack` is 1 — the `Math.min(selectedTrack, length - 1)` clamp of
`encodePlaylist` — not the parent's 3 that the claim promises. -/
theorem c3_first_chunk_clamped :
    splitPlaylist (resolvePlaylistOptions {}) c3Playlist 2
      = .ok ([{ name := "pl (Part 1)", selectedTrack := 1, pluginInfo := [],
                tracks := [{ track := "tokA", info := exampleTrackRecord },
                           { track := "tokB", info := exampleTrackRecord }] },
              { name := "pl (Part 2)", selectedTrack := 0, pluginInfo := [],
                tracks := [{ track := "tokC", info := exampleTrackRecord },
                           { track := "tokD", info := exampleTrackRecord }] }], []) ∧
    c3Playlist.selectedTrack = 3 ∧ (1 : Int) ≠ 3 := by
  refine ⟨by rfl, by rfl, by decide⟩

theorem c3_splitPlaylist_chunks_witness :
    ∃ chunks, splitPlaylist (resolvePlaylistOptions {}) c3Playlist 2 = .ok (chunks, []) ∧
      (chunks.map (fun c => c.tracks)).flatten = c3Playlist.tracks ∧
      ∀ j (hj : j < chunks.length),
        (chunks.get ⟨j, hj⟩).tracks = (c3Playlist.tracks.drop (j * 2)).take 2 ∧
        (chunks.get ⟨j, hj⟩).tracks.length ≤ 2 ∧
        (chunks.get ⟨j, hj⟩).name = c3Playlist.name ++ " (Part " ++ natStr (j + 1) ++ ")" ∧
        (chunks.get ⟨j, hj⟩).selectedTrack
          = min (if j = 0 then c3Playlist.selectedTrack else 0)
              (((chunks.get ⟨j, hj⟩).tracks.length : Int) - 1) :=
  c3_splitPlaylist_chunks (resolvePlaylistOptions {}) c3Playlist 2 (by decide)
    (by decide) (Or.inr (by decide)) (fun _ => by decide)

/-! ## Claim C7 -/

theorem mergedName_ne (n : Nat) : mergedDefaultName n ≠ "" := by
  intro h
  rw [mergedDefaultName] at h
  have hlen := congrArg String.length h
  rw [String.length_append, String.length_append] at hlen
  have h17 : ("Merged Playlist (" : String).length = 17 := rfl
  have h11 : (" playlists)" : String).length = 11 := rfl
  have hz : ("" : String).length = 0 := rfl
  omega

/-- **C7**: split/merge inverse. For a playlist of already-encoded tracks
(non-empty, within `maxTracks` — or `maxTracks = 0` — and with a
non-negative `selectedTrack` when validation is on), splitting into chunks
of 2 and merging the chunks back yields a playlist whose track sequence
equals the original sequence, in particular token-for-token in the same
order. -/
theorem c7_split_merge_inverse (opts : PlaylistEncoderOptions) (p : LavalinkPlaylist)
    (hne : p.tracks ≠ [])
    (htok : ∀ t ∈ p.tracks, t.track ≠ "")
    (hmax : opts.maxTracks = 0 ∨ (2 ≤ opts.maxTracks ∧ p.tracks.length ≤ opts.maxTracks))
    (hsel : opts.validate = true → 0 ≤ p.selectedTrack) :
    ∃ chunks pl, splitPlaylist opts p 2 = .ok (chunks, []) ∧
      mergePlaylists opts chunks none = .ok (pl, []) ∧
      pl.tracks = p.tracks ∧
      pl.tracks.map (fun t => t.track) = p.tracks.map (fun t => t.track) := by
  have hmax2 : opts.maxTracks = 0 ∨ 2 ≤ opts.maxTracks := by
    rcases hmax with h | ⟨h2, _⟩
    · exact Or.inl h
    · exact Or.inr h2
  obtain ⟨chunks, hgo, hflat, hnech, hget⟩ := splitGo_spec opts p.name p.selectedTrack 2
    (by omega) hmax2 p.tracks.length 0 p.tracks le_rfl htok (fun hv _ => hsel hv)
  have hsplit : splitPlaylist opts p 2 = .ok (chunks, []) := by
    rw [splitPlaylist, if_neg (by omega)]
    exact hgo
  obtain ⟨c0, rest, rfl⟩ : ∃ c0 rest, chunks = c0 :: rest := by
    cases chunks with
    | nil => exact absurd rfl (hnech hne)
    | cons a b => exact ⟨a, b, rfl⟩
  obtain ⟨h0t, h0n, h0s⟩ := hget 0 (by simp)
  have h0t2 : c0.tracks = (p.tracks.drop (0 * 2)).take 2 := h0t
  have h0s2 : c0.selectedTrack
      = min (if (0 : Nat) + 0 = 0 then p.selectedTrack else 0)
        ((c0.tracks.length : Int) - 1) := h0s
  rw [if_pos (rfl : (0 : Nat) + 0 = 0)] at h0s2
  rw [show (0 : Nat) * 2 = 0 from rfl, List.drop_zero] at h0t2
  have h0len : 1 ≤ c0.tracks.length := by
    rw [h0t2, List.length_take]
    have : p.tracks.length ≠ 0 := fun h => hne (List.length_eq_zero.mp h)
    omega
  have hallTracks : ((c0 :: rest).map (fun c => c.tracks)).flatten = p.tracks := hflat
  have hEnc := encodePlaylist_spec opts
    { name := mergedDefaultName (c0 :: rest).length
      selectedTrack := c0.selectedTrack }
    p.tracks htok hne
    (fun hv => ⟨mergedName_ne _, by
      show 0 ≤ c0.selectedTrack
      rw [h0s2]
      exact le_min (hsel hv) (by omega)⟩)
  have hlim2 : (if opts.maxTracks > 0 then p.tracks.take opts.maxTracks else p.tracks)
      = p.tracks := by
    rcases hmax with h | ⟨_, hlen2⟩
    · rw [if_neg (by omega)]
    · by_cases hm : opts.maxTracks > 0
      · rw [if_pos hm]
        exact List.take_of_length_le hlen2
      · rw [if_neg hm]
  have hwarn : (decide (opts.maxTracks > 0) && decide (p.tracks.length > opts.maxTracks))
      = false := by
    rcases hmax with h | ⟨_, hlen2⟩
    · rw [decide_eq_false (p := opts.maxTracks > 0) (by omega), Bool.false_and]
    · rw [decide_eq_false (p := p.tracks.length > opts.maxTracks) (by omega), Bool.and_false]
  rw [hlim2, hwarn] at hEnc
  simp only [Bool.and_false] at hEnc
  rw [if_neg Bool.false_ne_true] at hEnc
  refine ⟨c0 :: rest, { name := mergedDefaultName (c0 :: rest).length
                        selectedTrack := min c0.selectedTrack ((p.tracks.length : Int) - 1)
                        pluginInfo := []
                        tracks := p.tracks }, hsplit, ?_, rfl, rfl⟩
  simp only [mergePlaylists]
  rw [hallTracks]
  exact hEnc

/-- A four-track playlist with `selectedTrack` 0, for the split/merge
witness. -/
def c7Playlist : LavalinkPlaylist :=
  { name := "mix", selectedTrack := 0, pluginInfo := [], tracks := splitTracks }

theorem c7_split_merge_inverse_witness :
    ∃ chunks pl, splitPlaylist (resolvePlaylistOptions {}) c7Playlist 2 = .ok (chunks, []) ∧
      mergePlaylists (resolvePlaylistOptions {}) chunks none = .ok (pl, []) ∧
      pl.tracks = c7Playlist.tracks ∧
      pl.tracks.map (fun t => t.track) = c7Playlist.tracks.map (fun t => t.track) :=
  c7_split_merge_inverse (resolvePlaylistOptions {}) c7Playlist (by decide) (by decide)
    (Or.inr ⟨by decide, by decide⟩) (fun _ => by decide)
